import Mathlib

/-!
Verification development for the tga-tools bank statement pipeline.

The Python sources under scrutiny are shallowly embedded here:

* strings are modelled through their character lists (`String.data`);
  Python `str.replace` with single-character arguments is `List.filter`
  or `List.map`, `str.strip` is dropping whitespace on both ends;
* Python floats are modelled exactly over `ℚ`; the inputs exercised stay
  far below any magnitude where binary rounding could separate two
  distinct decimal inputs handled by the code;
* fallible operations (exceptions) are modelled with `Option`/`Except`
  results; external collaborators (pdf rasterisation, tesseract,
  camelot, pdfplumber) are modelled as environments whose outcomes the
  theorems quantify over.

Each definition carries a note naming the source function it embeds.
-/

namespace TGA

/-! ## Character and string utilities -/

/-- Value of an ASCII digit character, as Python `int` sees it. -/
def digitVal (c : Char) : Nat := c.toNat - 48

/-- Digit character for a value below ten. -/
def renderDigit (n : Nat) : Char :=
  match n with
  | 0 => '0' | 1 => '1' | 2 => '2' | 3 => '3' | 4 => '4'
  | 5 => '5' | 6 => '6' | 7 => '7' | 8 => '8' | _ => '9'

/-- Numeric value of a digit string, most significant first
(the semantics of Python `int` on a digit-only string). -/
def digitsToNat (cs : List Char) : Nat :=
  cs.foldl (fun n c => 10 * n + digitVal c) 0

/-- Two-digit zero-padded rendering (for values below 100). -/
def pad2 (n : Nat) : List Char :=
  if n < 10 then ['0', renderDigit n] else [renderDigit (n / 10), renderDigit (n % 10)]

/-- Four-digit zero-padded rendering (for values below 10000),
as produced by `strftime` year fields. -/
def pad4 (n : Nat) : List Char :=
  [renderDigit (n / 1000), renderDigit (n / 100 % 10), renderDigit (n / 10 % 10), renderDigit (n % 10)]

/-- Split a character list at every occurrence of `sep`
(the semantics of Python `str.split` with an explicit separator). -/
def splitSep (sep : Char) : List Char → List (List Char)
  | [] => [[]]
  | c :: t =>
    match splitSep sep t with
    | [] => [[c]]
    | g :: gs => if c = sep then [] :: g :: gs else (c :: g) :: gs

/-- Does `hay` start with `pat`? -/
def startsWithL : List Char → List Char → Bool
  | _, [] => true
  | [], _ :: _ => false
  | h :: hs, p :: ps => h = p && startsWithL hs ps

/-- Contiguous substring test, the semantics of Python `pat in hay`. -/
def hasSubL : List Char → List Char → Bool
  | [], pat => pat.isEmpty
  | hay@(_ :: t), pat => startsWithL hay pat || hasSubL t pat

/-- Substring test on strings. -/
def hasSub (hay pat : String) : Bool := hasSubL hay.data pat.data

/-- Python `str.strip()`: drop leading and trailing whitespace. -/
def trimL (cs : List Char) : List Char :=
  ((cs.dropWhile Char.isWhitespace).reverse.dropWhile Char.isWhitespace).reverse

/-- ASCII uppercase of a character list (Python `str.upper` on the
ASCII inputs this pipeline handles). -/
def upperL (cs : List Char) : List Char := cs.map Char.toUpper

/-- ASCII lowercase of a character list. -/
def lowerL (cs : List Char) : List Char := cs.map Char.toLower

/-! ## Amount normalisation

Embeds `_to_amount` from `src/backend/extractos/parsers/generic.py`:

    def _to_amount(s):
        if not s: return 0.0
        t = str(s).strip().replace("$", "").replace(" ", "")
        neg = t.startswith("-") or t.endswith("-")
        t = t.replace("-", "").replace(".", "").replace(",", ".")
        try: return -float(t) if neg else float(t)
        except Exception: return 0.0
-/

/-- Python `float(...)` restricted to the plain decimal literals this
pipeline can produce (an optional leading plus, digits, at most one
dot; scientific notation and the special values never arise from the
transformed amount strings).  Returns `none` where `float` raises. -/
def pyFloat (t : List Char) : Option ℚ :=
  let t := if t.head? = some '+' then t.tail else t
  let a := t.takeWhile (· ≠ '.')
  let r := t.dropWhile (· ≠ '.')
  match r with
  | [] =>
    if a ≠ [] ∧ a.all Char.isDigit then some (digitsToNat a) else none
  | _ :: b =>
    if b.all (· ≠ '.') ∧ (a ≠ [] ∨ b ≠ []) ∧ a.all Char.isDigit ∧ b.all Char.isDigit then
      some ((digitsToNat a : ℚ) + (digitsToNat b : ℚ) / (10 : ℚ) ^ b.length)
    else none

/-- Core of `_to_amount` on a character list.  The `replace` calls all
have single-character patterns, hence the filters and the map. -/
def toAmountL (cs : List Char) : ℚ :=
  let t := (trimL cs).filter (fun c => c ≠ '$' ∧ c ≠ ' ')
  let neg := (t.head? = some '-') || (t.getLast? = some '-')
  let t := (t.filter (· ≠ '-')).filter (· ≠ '.')
  let t := t.map (fun c => if c = ',' then '.' else c)
  match pyFloat t with
  | some v => if neg then -v else v
  | none => 0

/-- `_to_amount` (generic.py).  `none` models Python `None`; both `None`
and the empty string are falsy and yield `0.0`. -/
def toAmount (s : Option String) : ℚ :=
  match s with
  | none => 0
  | some s0 => if s0 = "" then 0 else toAmountL s0.data

/-! ## Calendar dates

The Python code parses dates through `datetime.strptime` and
`pandas.to_datetime`; both validate real Gregorian dates, and pandas
additionally rejects dates outside the `Timestamp` range. -/

def isLeap (y : Nat) : Bool := (y % 4 = 0 && y % 100 ≠ 0) || (y % 400 = 0)

def daysInMonth (y m : Nat) : Nat :=
  if m = 2 then (if isLeap y then 29 else 28)
  else if m = 4 ∨ m = 6 ∨ m = 9 ∨ m = 11 then 30
  else 31

/-- A parsed calendar date. -/
structure PDate where
  y : Nat
  m : Nat
  d : Nat
deriving DecidableEq, Repr

/-- Order-preserving numeric code of a date (fields are bounded, so
lexicographic comparison agrees with this code). -/
def PDate.code (t : PDate) : Nat := t.y * 10000 + t.m * 100 + t.d

/-- Inside the `pandas.Timestamp` range (1677-09-21 .. 2262-04-11);
`to_datetime(..., errors="coerce")` yields `NaT` outside it. -/
def tsOk (t : PDate) : Bool := 16770921 ≤ t.code && t.code ≤ 22620411

/-- The `%d` field of `strptime`: one or two digits holding 1..31. -/
def parseDayField (cs : List Char) : Option Nat :=
  if cs ≠ [] ∧ cs.length ≤ 2 ∧ cs.all Char.isDigit then
    let v := digitsToNat cs
    if 1 ≤ v ∧ v ≤ 31 then some v else none
  else none

/-- The `%m` field of `strptime`: one or two digits holding 1..12. -/
def parseMonthField (cs : List Char) : Option Nat :=
  if cs ≠ [] ∧ cs.length ≤ 2 ∧ cs.all Char.isDigit then
    let v := digitsToNat cs
    if 1 ≤ v ∧ v ≤ 12 then some v else none
  else none

/-- The `%Y` field of `strptime`: exactly four digits; `datetime`
accepts years 1..9999 and four digits cannot exceed 9999, so only the
lower bound is checked afterwards. -/
def parseY4 (cs : List Char) : Option Nat :=
  if cs.length = 4 ∧ cs.all Char.isDigit then some (digitsToNat cs) else none

/-- The `%y` field of `strptime`: exactly two digits; CPython maps
values up to 68 into 20xx and 69..99 into 19xx. -/
def parseY2 (cs : List Char) : Option Nat :=
  if cs.length = 2 ∧ cs.all Char.isDigit then
    let v := digitsToNat cs
    some (if v ≤ 68 then 2000 + v else 1900 + v)
  else none

inductive YKind | y4 | y2
deriving DecidableEq

/-- `datetime.strptime(s, fmt)` for the day-first formats
`%d/%m/%Y`-style used in the code: the separator and the year kind are
the parameters.  The whole string must be consumed and the resulting
date must exist (the `datetime` constructor validates it). -/
def strptimeDMY (sep : Char) (yk : YKind) (cs : List Char) : Option PDate :=
  match splitSep sep cs with
  | [a, b, c] => do
    let d ← parseDayField a
    let m ← parseMonthField b
    let y ← (match yk with | .y4 => parseY4 c | .y2 => parseY2 c)
    if 1 ≤ y ∧ d ≤ daysInMonth y m then some ⟨y, m, d⟩ else none
  | _ => none

/-- `datetime.strptime(s, "%Y/%m/%d")`. -/
def strptimeYMD (cs : List Char) : Option PDate :=
  match splitSep '/' cs with
  | [a, b, c] => do
    let y ← parseY4 a
    let m ← parseMonthField b
    let d ← parseDayField c
    if 1 ≤ y ∧ d ≤ daysInMonth y m then some ⟨y, m, d⟩ else none
  | _ => none

/-- Python `int(...)` on a string: strips whitespace, optional sign,
then a non-empty digit string.  Here only the non-negative form is
needed; a leading minus makes the later `datetime` call fail anyway,
so it is folded into the failure case. -/
def pyIntNat (cs : List Char) : Option Nat :=
  let t := trimL cs
  let t := match t with
    | '+' :: r => r
    | r => r
  if t ≠ [] ∧ t.all Char.isDigit then some (digitsToNat t) else none

/-- `YYYY-MM-DD` rendering (`strftime("%Y-%m-%d")`). -/
def isoRender (t : PDate) : List Char :=
  pad4 t.y ++ '-' :: (pad2 t.m ++ '-' :: pad2 t.d)

/-- `dd/mm/YYYY` rendering (`strftime("%d/%m/%Y")`). -/
def dmyRender (t : PDate) : List Char :=
  pad2 t.d ++ '/' :: (pad2 t.m ++ '/' :: pad4 t.y)

/-- `BaseParser.normalize_date` from
`src/backend/extractos/parsers/base_parser.py`: try the formats
`%d/%m/%Y`, `%d/%m/%y`, `%Y/%m/%d`, `%d-%m-%Y`, `%d-%m-%y` in order and
return the ISO rendering of the first hit; on a two-part `dd/mm` string
complete the year with `inferred_year` (here: the `nowYear` argument,
standing for `datetime.now().year` when no inferred year is passed);
otherwise return the stripped input unchanged. -/
def normalizeDate (nowYear : Nat) (s : String) : String :=
  if s = "" then "" else
  let cs := trimL s.data
  match strptimeDMY '/' .y4 cs with
  | some t => ⟨isoRender t⟩
  | none =>
  match strptimeDMY '/' .y2 cs with
  | some t => ⟨isoRender t⟩
  | none =>
  match strptimeYMD cs with
  | some t => ⟨isoRender t⟩
  | none =>
  match strptimeDMY '-' .y4 cs with
  | some t => ⟨isoRender t⟩
  | none =>
  match strptimeDMY '-' .y2 cs with
  | some t => ⟨isoRender t⟩
  | none =>
  match splitSep '/' cs with
  | [a, b] =>
    (match pyIntNat a, pyIntNat b with
     | some d, some m =>
       if 1 ≤ nowYear ∧ nowYear ≤ 9999 ∧ 1 ≤ m ∧ m ≤ 12 ∧ 1 ≤ d ∧ d ≤ daysInMonth nowYear m then
         ⟨isoRender ⟨nowYear, m, d⟩⟩
       else ⟨cs⟩
     | _, _ => ⟨cs⟩)
  | _ => ⟨cs⟩

/-- Strict `YYYY-MM-DD` parse, the shape `pandas.to_datetime` sees on
the success output of `normalizeDate`. -/
def isoParse (cs : List Char) : Option PDate :=
  match splitSep '-' cs with
  | [a, b, c] => do
    let y ← parseY4 a
    let m ← parseMonthField b
    let d ← parseDayField c
    if 1 ≤ y ∧ d ≤ daysInMonth y m then some ⟨y, m, d⟩ else none
  | _ => none

/-- `pandas.to_datetime(s, errors="coerce", dayfirst=True)` without an
explicit format, restricted to the shapes that actually reach it in
this pipeline: ISO `YYYY-MM-DD` output of `normalizeDate`, or a
day-first `dd/mm/YYYY` string; anything else coerces to `NaT`
(`none`), as do dates outside the `Timestamp` range. -/
def pdGuessDate (cs : List Char) : Option PDate :=
  match (isoParse cs).orElse (fun _ => strptimeDMY '/' .y4 cs) with
  | some t => if tsOk t then some t else none
  | none => none

/-- `pandas.to_datetime(s, errors="coerce", dayfirst=True, format="%d/%m/%Y")`:
the explicit format makes the parse strict; out-of-range dates coerce
to `NaT`. -/
def pdParseDMY (s : String) : Option PDate :=
  match strptimeDMY '/' .y4 s.data with
  | some t => if tsOk t then some t else none
  | none => none

/-- The per-cell date rewrite of `UniversalExtractor.extract_from_pdf`
(universal_extractor.py lines 265-267): coerce through
`pandas.to_datetime(..., dayfirst=True)` and render `%d/%m/%Y`,
`fillna("")` turning an unparseable cell into the empty string. -/
def reformatCell (s : String) : String :=
  match pdGuessDate s.data with
  | some t => ⟨dmyRender t⟩
  | none => ""

/-- The composed date normalisation a parsed row's `fecha` undergoes:
`BaseParser.normalize_date` inside the parser, then the
`extract_from_pdf` rewrite to `dd/mm/yyyy`. -/
def pipelineDate (nowYear : Nat) (s : String) : String :=
  reformatCell (normalizeDate nowYear s)

/-- Python `str.strip()` on strings. -/
def stripStr (s : String) : String := ⟨trimL s.data⟩

/-! ## The generic fallback statement parser

Embeds `GenericParser` from `src/backend/extractos/parsers/generic.py`
together with `BaseParser.finalize`. -/

namespace Generic

/-- One raw tabular block as camelot delivers it: column names and the
cell grid, every cell already a string (`str(...)` is applied before
any use in the source). -/
structure Table where
  cols : List String
  rows : List (List String)

/-- The row dictionaries `GenericParser.parse` accumulates before
`finalize`. -/
structure RawRow where
  fecha : String
  detalle : String
  referencia : String
  debito : ℚ
  credito : ℚ
  saldo : ℚ
deriving DecidableEq, Repr

/-- A canonical output row after `BaseParser.finalize`; `mes`/`anio`
are `none` where the source leaves the `""` placeholder (the `fecha`
cell did not parse as a date). -/
structure GRow where
  fecha : String
  mes : Option Nat
  anio : Option Nat
  detalle : String
  referencia : String
  debito : ℚ
  credito : ℚ
  saldo : ℚ
deriving DecidableEq, Repr

/-- `GenericParser._find_col`: index of the first column whose
(lowercased) name contains one of the keys as a substring. -/
def findColFrom (keys : List String) : List String → Nat → Option Nat
  | [], _ => none
  | c :: t, i => if keys.any (fun k => hasSub c k) then some i else findColFrom keys t (i + 1)

def findCol (cols keys : List String) : Option Nat := findColFrom keys cols 0

def fechaKeys : List String := ["fecha", "fec", "date"]
def detKeys : List String := ["concepto", "detalle", "descripcion", "movimiento"]
def debKeys : List String := ["debito", "debitos", "debe", "egreso", "cargo"]
def credKeys : List String := ["credito", "creditos", "haber", "ingreso", "abono", "deposito"]
def saldoKeys : List String := ["saldo", "balance", "total", "saldo actual", "saldo final"]

/-- Reading cell `r.iloc[i]`: a resolved column index out of range
raises, which aborts the per-table loop; an unresolved column
(`None` index) is not read at all. -/
def cellAt (r : List String) : Option Nat → Option (Option String)
  | none => some none
  | some i => (r.get? i).map some

/-- `_to_amount(r.iloc[idx]) if idx is not None else 0.0`. -/
def amtCell : Option String → ℚ
  | some s => toAmount (some s)
  | none => 0

/-- One table row turned into a row dictionary (generic.py lines
79-95), or `none` for the rows skipped by the emptiness test. -/
def mkTableRow (nowYear : Nat) (cF cD cDeb cCred cS : Option String) : Option RawRow :=
  let fecha := (cF.map stripStr).getD ""
  let detalle := (cD.map stripStr).getD ""
  let deb := amtCell cDeb
  let cred := amtCell cCred
  let saldo := amtCell cS
  if fecha = "" ∧ detalle = "" ∧ deb = 0 ∧ cred = 0 ∧ saldo = 0 then none
  else some
    { fecha := normalizeDate nowYear fecha
      detalle := ⟨detalle.data.take 200⟩
      referencia := ""
      debito := max 0 deb
      credito := max 0 cred
      saldo := saldo }

/-- The per-table row loop; a failing cell access stops the loop (the
surrounding `try` keeps the rows already appended and ignores the rest
of the table). -/
def tableGo (nowYear : Nat) (iF iD iDeb iCred iS : Option Nat) : List (List String) → List RawRow
  | [] => []
  | r :: rest =>
    match (do
      let cF ← cellAt r iF
      let cD ← cellAt r iD
      let cDeb ← cellAt r iDeb
      let cCred ← cellAt r iCred
      let cS ← cellAt r iS
      pure (cF, cD, cDeb, cCred, cS) : Option _) with
    | none => []
    | some (cF, cD, cDeb, cCred, cS) =>
      match mkTableRow nowYear cF cD cDeb cCred cS with
      | none => tableGo nowYear iF iD iDeb iCred iS rest
      | some row => row :: tableGo nowYear iF iD iDeb iCred iS rest

/-- Rows contributed by one raw table. -/
def tableRows (nowYear : Nat) (tb : Table) : List RawRow :=
  let cols := tb.cols.map (fun c => (⟨lowerL c.data⟩ : String))
  tableGo nowYear (findCol cols fechaKeys) (findCol cols detKeys) (findCol cols debKeys)
    (findCol cols credKeys) (findCol cols saldoKeys) tb.rows

/-- A pre-cleaned text line, represented by its decomposition under the
module regexes: `saldoAnt`/`saldoFin` when `_SALDO_ANT_PAT` /
`_SALDO_FIN_PAT` match (carrying the `_AMT_STRICT` search result),
`mov` when `_LINE` matches (carrying its captured groups; `deb` and
`cred` are the optional groups), `plain` when none matches.  The
theorems quantify over every decomposition, hence over whatever the
regex engine produces on any line. -/
inductive TLine
  | saldoAnt (amt : Option String)
  | saldoFin (amt : Option String)
  | mov (fecha detalle : String) (deb cred : Option String) (saldo : String)
  | plain
deriving DecidableEq, Repr

/-- Row dictionary built from the captured groups of `_LINE`
(generic.py lines 119-136): negative movement amounts are flipped to
their absolute value. -/
def mkMovRow (nowYear : Nat) (fecha detalle : String) (deb cred : Option String) (saldo : String) : RawRow :=
  let d := toAmount deb
  let c := toAmount cred
  let d := if d < 0 then -d else d
  let c := if c < 0 then -c else c
  { fecha := normalizeDate nowYear fecha
    detalle := ⟨(stripStr detalle).data.take 200⟩
    referencia := ""
    debito := d
    credito := c
    saldo := toAmount (some saldo) }

/-- The text-line loop: saldo markers set `saldo_ant`/`saldo_fin`
(later lines overwrite earlier ones), `_LINE` matches append movement
rows. -/
def scanLines (nowYear : Nat) : List TLine → Option ℚ × Option ℚ × List RawRow
  | [] => (none, none, [])
  | l :: rest =>
    let (a, f, rs) := scanLines nowYear rest
    match l with
    | .saldoAnt amt =>
      (match a with
       | some v => (some v, f, rs)
       | none => ((amt.map (fun s => toAmount (some s))), f, rs))
    | .saldoFin amt =>
      (match f with
       | some v => (a, some v, rs)
       | none => (a, (amt.map (fun s => toAmount (some s))), rs))
    | .mov fecha detalle deb cred saldo =>
      (a, f, mkMovRow nowYear fecha detalle deb cred saldo :: rs)
    | .plain => (a, f, rs)

/-- A balance row appended for a detected SALDO ANTERIOR / FINAL. -/
def saldoRow (label : String) (v : ℚ) : RawRow :=
  { fecha := "", detalle := label, referencia := "", debito := 0, credito := 0, saldo := v }

/-- `BaseParser.finalize` on one row: amounts are already numeric (the
`to_numeric(...).fillna(0.0)` pass is the identity on them); `mes` and
`anio` come from re-parsing `fecha` with
`pandas.to_datetime(..., dayfirst=True)`, staying `""` (`none`) where
that fails. -/
def finalizeRow (r : RawRow) : GRow :=
  match pdGuessDate r.fecha.data with
  | some t =>
    { fecha := r.fecha, mes := some t.m, anio := some t.y, detalle := r.detalle
      referencia := r.referencia, debito := r.debito, credito := r.credito, saldo := r.saldo }
  | none =>
    { fecha := r.fecha, mes := none, anio := none, detalle := r.detalle
      referencia := r.referencia, debito := r.debito, credito := r.credito, saldo := r.saldo }

/-- The input of `GenericParser.parse` after the `isinstance` dispatch
at its top: the DataFrames and the stripped non-empty text lines found
in `raw_data`, in order. -/
structure GInput where
  tables : List Table
  lines : List TLine

/-- `GenericParser.parse`: table rows, then movement rows from text,
with SALDO ANTERIOR / SALDO FINAL rows prepended, all passed through
`finalize`. -/
def parse (nowYear : Nat) (inp : GInput) : List GRow :=
  let tRows := (inp.tables.map (tableRows nowYear)).flatten
  let res := scanLines nowYear inp.lines
  let rows := tRows ++ res.2.2
  let extra :=
    (match res.1 with
     | some v => [saldoRow "SALDO ANTERIOR" v]
     | none => []) ++
    (match res.2.1 with
     | some v => [saldoRow "SALDO FINAL" v]
     | none => [])
  (extra ++ rows).map finalizeRow

end Generic

/-! ## The two-pass OCR relevance filter

Embeds `OCRExtractor` from `src/backend/extractors/ocr_extractor.py`.
The external collaborators (poppler rasterisation, tesseract
recognition) are an environment: the quick pass scores each page by the
three counters the source computes (header-keyword containment count
and the two regex `findall` counts), so a page's quick result is
represented by those counters; a full-resolution image is represented
by the number of the page it rasterises, so the pairing the code
performs is observable. -/

namespace OCR

/-- The score dictionary of `_es_pagina_relevante`. -/
structure PageStats where
  headers : Nat
  fechas : Nat
  importes : Nat
deriving DecidableEq, Repr

/-- `OCRExtractor._es_pagina_relevante` (ocr_extractor.py lines
94-104), as a function of the three counters. -/
def esPaginaRelevante (s : PageStats) : Bool :=
  (decide (2 ≤ s.headers) && (decide (5 ≤ s.fechas) || decide (5 ≤ s.importes))) ||
  (decide (8 ≤ s.fechas) && decide (6 ≤ s.importes)) ||
  decide (3 ≤ s.headers)

/-- Environment of one `extract_text_pages` call: page count of the
document, whether quick-pass rasterisation succeeds (either attempt),
the per-page quick recognition outcome (`none` = the per-page `try`
caught an exception), whether full-pass rasterisation of a page range
succeeds, and the per-page full-resolution recognition outcome. -/
structure Env where
  numPages : Nat
  convertQuickOk : Bool
  quick : Nat → Option PageStats
  convertFullOk : Nat → Nat → Bool
  fullText : Nat → Option String

/-- Pages marked relevant by the quick pass (1-based, in order); a page
whose quick recognition failed is skipped, hence not relevant. -/
def relevantPages (env : Env) : List Nat :=
  (List.range' 1 env.numPages).filter (fun i => ((env.quick i).map esPaginaRelevante).getD false)

/-- The fixed-size batching `relevantes_idx[i:i+BATCH_SIZE]` with
`BATCH_SIZE = 10`; the fuel (initially the list length, consumed at
least one element per step) keeps the recursion structural. -/
def chunksGo (fuel : Nat) (l : List α) : List (List α) :=
  match fuel, l with
  | 0, _ => []
  | _, [] => []
  | f + 1, a :: rest => (a :: rest.take 9) :: chunksGo f (rest.drop 9)

def chunks10 (l : List α) : List (List α) := chunksGo l.length l

/-- One full-pass batch (ocr_extractor.py lines 146-171):
`convert_from_path(first_page=batch[0], last_page=batch[-1])`
rasterises every page of that closed range; `zip(batch, imgs_batch)`
then pairs the batch's page numbers with the range's images in order.
A failing per-page recognition is skipped; a failing conversion skips
the whole batch. -/
def batchResults (env : Env) (batch : List Nat) : List (Nat × String) :=
  match batch with
  | [] => []
  | h :: t =>
    let lastp := (h :: t).getLast (List.cons_ne_nil h t)
    if env.convertFullOk h lastp then
      let imgs := List.range' h (lastp - h + 1)
      ((h :: t).zip imgs).filterMap (fun p => (env.fullText p.2).map (fun tx => (p.1, tx)))
    else []

/-- The pages whose full-resolution image is actually fed to the
recogniser in one batch: the second components of the zip. -/
def batchRecognized (env : Env) (batch : List Nat) : List Nat :=
  match batch with
  | [] => []
  | h :: t =>
    let lastp := (h :: t).getLast (List.cons_ne_nil h t)
    if env.convertFullOk h lastp then
      (((h :: t).zip (List.range' h (lastp - h + 1))).map (fun p => p.2))
    else []

/-- `OCRExtractor.extract_text_pages` (ocr_extractor.py lines
106-173). -/
def extractTextPages (env : Env) : List (Nat × String) :=
  if env.convertQuickOk then
    let rel := relevantPages env
    if rel = [] then []
    else ((chunks10 rel).map (batchResults env)).flatten
  else []

/-- Observer on the same control flow: every page recognised at full
resolution during `extract_text_pages`. -/
def fullPassPages (env : Env) : List Nat :=
  if env.convertQuickOk then
    let rel := relevantPages env
    if rel = [] then []
    else ((chunks10 rel).map (batchRecognized env)).flatten
  else []

/-- A three-page document whose quick pass marks pages 1 and 3
relevant (three header keywords each) and page 2 irrelevant; every
external call succeeds, and the full-resolution recognition of page
`p` yields the text `Tp`. -/
def misalignedDoc : Env :=
  { numPages := 3
    convertQuickOk := true
    quick := fun i => if i = 2 then some ⟨0, 0, 0⟩ else some ⟨3, 0, 0⟩
    convertFullOk := fun _ _ => true
    fullText := fun p => some ⟨['T', renderDigit p]⟩ }

end OCR

/-! ## Bank classification and filename metadata

Embeds `parse_filename_metadata`, `_detect_bank_from_filename`,
`_detect_bank_hint` and the `bank_hint` resolution of
`UniversalExtractor.extract_from_pdf` (universal_extractor.py). -/

namespace Classifier

def BANKS : List String :=
  ["BBVA", "BPN", "CIUDAD", "CREDICOOP", "GALICIA", "HIPOTECARIO", "HSBC",
   "ICBC", "ITAU", "MACRO", "MERCADOPAGO", "NACION", "PATAGONIA",
   "PROVINCIA", "RIOJA", "SANJUAN", "SANTANDER", "SUPERVIELLE", "COMAFI"]

/-- `pathlib.Path(...).name`: the component after the last slash. -/
def pathName (cs : List Char) : List Char :=
  (splitSep '/' cs).getLast (by
    induction cs with
    | nil => simp [splitSep]
    | cons c t ih =>
      simp only [splitSep]
      match h : splitSep '/' t with
      | [] => simp
      | g :: gs => simp only [h]; split <;> simp)

/-- `pathlib.Path(...).stem`: the name without its suffix; a suffix
exists only when the last dot is neither the first nor the last
character of the name. -/
def stemL (cs : List Char) : List Char :=
  let nm := pathName cs
  match (List.range nm.length).reverse.find? (fun i => nm.get? i = some '.') with
  | some i => if 0 < i ∧ i + 1 < nm.length then nm.take i else nm
  | none => nm

/-- The `re.sub` of universal_extractor.py line 100: collapse every
run of two or more dash/slash characters into one slash.  The fuel
(initially the length, at least one character consumed per step) keeps
the recursion structural. -/
def collapseGo (fuel : Nat) (cs : List Char) : List Char :=
  match fuel, cs with
  | 0, _ => []
  | _, [] => []
  | f + 1, c :: rest =>
    if c = '-' ∨ c = '/' then
      let run := rest.takeWhile (fun x => x = '-' ∨ x = '/')
      let rest2 := rest.dropWhile (fun x => x = '-' ∨ x = '/')
      (if run.length = 0 then [c] else ['/']) ++ collapseGo f rest2
    else c :: collapseGo f rest

def collapseSep (cs : List Char) : List Char := collapseGo cs.length cs

/-- Four consecutive digits somewhere (`re.search(r"\d{4}", s)`). -/
def hasFourDigitRun : List Char → Bool
  | a :: b :: c :: d :: rest =>
    (a.isDigit && b.isDigit && c.isDigit && d.isDigit) || hasFourDigitRun (b :: c :: d :: rest)
  | _ => false

/-- Python `str.title()` on ASCII text: a cased character is
uppercased after a non-alphabetic character and lowercased
otherwise. -/
def titleGo : Option Char → List Char → List Char
  | _, [] => []
  | prev, c :: rest =>
    (if (prev.map Char.isAlpha).getD false then c.toLower else c.toUpper) :: titleGo (some c) rest

def titleStr (s : String) : String := ⟨titleGo none s.data⟩

def MESES_FN : List String :=
  ["ENE", "ENERO", "FEB", "FEBRERO", "MAR", "MARZO", "ABR", "ABRIL",
   "MAY", "MAYO", "JUN", "JUNIO", "JUL", "JULIO", "AGO", "AGOSTO",
   "SEP", "SEPT", "SEPTIEMBRE", "OCT", "OCTUBRE", "NOV", "NOVIEMBRE",
   "DIC", "DICIEMBRE"]

/-- The dash-separated non-empty tokens of the uppercased stem, with
underscores and spaces first turned into dashes (universal_extractor.py
lines 74-75 and 125-126). -/
def partsOf (filename : String) : List String :=
  let name := (upperL (stemL filename.data)).map (fun c => if c = '_' ∨ c = ' ' then '-' else c)
  ((splitSep '-' name).filter (· ≠ [])).map (fun p => (⟨p⟩ : String))

/-- The structured result of `parse_filename_metadata`. -/
structure FMeta where
  empresa : String
  banco : String
  extras : List String
  periodo : String
deriving DecidableEq, Repr

def emptyMeta : FMeta := ⟨"", "", [], ""⟩

/-- Index of the first element satisfying a predicate (the
`for i, part in enumerate(parts)` search of the source). -/
def firstIdxP (p : α → Bool) : List α → Option Nat
  | [] => none
  | a :: t => if p a then some 0 else (firstIdxP p t).map (· + 1)

/-- `parse_filename_metadata` (universal_extractor.py lines 64-118).
The partial list accesses of the source are kept as `Option` binds, so
`none` would mark a path on which Python raises; the theorem shows no
such path exists. -/
def parseFilenameMetadata (filename : String) : Option FMeta :=
  let parts := partsOf filename
  if parts.length < 3 then some emptyMeta else
  match firstIdxP (fun p => decide (p ∈ BANKS)) parts with
  | none => some emptyMeta
  | some i =>
    if parts.length - 1 ≤ i then some emptyMeta else do
      let banco ← parts.get? i
      let empresa := String.intercalate "-" (parts.take i)
      let extras := if i + 2 < parts.length then (parts.drop (i + 1)).dropLast else []
      let periodoRaw ← parts.getLast?
      let p1 := periodoRaw.data.map (fun c => if c = '+' ∨ c = '_' then '/' else c)
      let p2 := collapseSep p1
      let tieneMes := MESES_FN.any (fun m => hasSubL p2 m.data)
      let tieneAnio := hasFourDigitRun p2
      if ¬ tieneMes ∧ ¬ tieneAnio ∧ i + 1 < parts.length then do
        let a ← parts.get? (parts.length - 2)
        let b ← parts.getLast?
        pure { empresa := titleStr empresa, banco := ⟨upperL banco.data⟩, extras := extras
               periodo := titleStr (a ++ "-" ++ b) }
      else
        pure { empresa := titleStr empresa, banco := ⟨upperL banco.data⟩, extras := extras
               periodo := titleStr ⟨p2⟩ }

/-- `_detect_bank_from_filename` (universal_extractor.py lines
122-136): first token containing an allow-listed bank as a
substring. -/
def detectBankFromFilename (filename : String) : String :=
  if filename = "" then "" else
  ((partsOf filename).findSome? (fun p => BANKS.find? (fun b => hasSub p b))).getD ""

def HINTS : List (String × List String) :=
  [("ITAU", ["ITAU", "ITAÚ"]),
   ("RIOJA", ["BANCO RIOJA", "LA RIOJA"]),
   ("BPN", ["BANCO PROVINCIA NEUQUEN", "BPN"]),
   ("NACION", ["BANCO DE LA NACION", "BANCO NACION", "BNA"]),
   ("MACRO", ["BANCO MACRO", "MACRO"]),
   ("PATAGONIA", ["BANCO PATAGONIA", "PATAGONIA EBANK", "PATAGONIA"]),
   ("SANJUAN", ["BANCO SAN JUAN", "SAN JUAN"]),
   ("BBVA", ["BBVA", "FRANCES", "BANCO FRANCES"]),
   ("GALICIA", ["BANCO GALICIA", "OFFICE BANKING GALICIA"]),
   ("SUPERVIELLE", ["SUPERVIELLE", "BANCO SUPERVIELLE"]),
   ("HIPOTECARIO", ["BANCO HIPOTECARIO", "HIPOTECARIO"]),
   ("ICBC", ["ICBC", "INDUSTRIAL AND COMMERCIAL BANK OF CHINA"]),
   ("HSBC", ["HSBC", "HSBC ARGENTINA"]),
   ("COMAFI", ["BANCO COMAFI", "COMAFI"]),
   ("CREDICOOP", ["BANCO CREDICOOP", "CREDICOOP"]),
   ("PROVINCIA", ["BANCO PROVINCIA", "BAPRO", "BANCO DE LA PROVINCIA"]),
   ("MERCADOPAGO", ["MERCADO PAGO", "MERCADOPAGO"])]

/-- One pass of the alias scan over a haystack. -/
def hintScan (hay : String) : Option String :=
  HINTS.findSome? (fun cs => if cs.2.any (fun k => hasSub hay k) then some cs.1 else none)

/-- `_detect_bank_hint` (universal_extractor.py lines 139-169): the
alias phrases are scanned over the uppercased filename first, then over
the uppercased text sample. -/
def detectBankHint (blob filename : String) : String :=
  let hayText : String := ⟨upperL blob.data⟩
  let hayFile : String := ⟨upperL filename.data⟩
  match hintScan hayFile with
  | some c => c
  | none => (hintScan hayText).getD ""

/-- The bank resolution of `extract_from_pdf`
(universal_extractor.py line 212):
`meta.banco or _detect_bank_from_filename(...) or
_detect_bank_hint("\n".join(text_lines_raw[:250]), ...) or "GENÉRICO"`. -/
def bankHint (filename : String) (textLinesRaw : List String) : String :=
  let b1 := ((parseFilenameMetadata filename).getD emptyMeta).banco
  if b1 ≠ "" then b1 else
  let b2 := detectBankFromFilename filename
  if b2 ≠ "" then b2 else
  let b3 := detectBankHint (String.intercalate "\n" (textLinesRaw.take 250)) filename
  if b3 ≠ "" then b3 else "GENÉRICO"

/-- The classification chain exactly as the claim words it: (1) the
filename-pattern bank, (2) else the filename token scan, (3) else a
scan of the document text sample alone against the alias phrases,
(4) else the generic sentinel.  Stated for comparison with `bankHint`;
stage (3) deliberately ignores the filename. -/
def claimBankSpec (filename : String) (textLinesRaw : List String) : String :=
  let b1 := ((parseFilenameMetadata filename).getD emptyMeta).banco
  if b1 ≠ "" then b1 else
  let b2 := detectBankFromFilename filename
  if b2 ≠ "" then b2 else
  let b3 := (hintScan ⟨upperL (String.intercalate "\n" (textLinesRaw.take 250)).data⟩).getD ""
  if b3 ≠ "" then b3 else "GENÉRICO"

/-- The classification chain with stage (3) amended to what the code
does: the alias phrases are scanned over the filename before the text
sample. -/
def amendedBankSpec (filename : String) (textLinesRaw : List String) : String :=
  let b1 := ((parseFilenameMetadata filename).getD emptyMeta).banco
  if b1 ≠ "" then b1 else
  let b2 := detectBankFromFilename filename
  if b2 ≠ "" then b2 else
  let sample := String.intercalate "\n" (textLinesRaw.take 250)
  let b3 := match hintScan ⟨upperL filename.data⟩ with
    | some c => c
    | none => (hintScan ⟨upperL sample.data⟩).getD ""
  if b3 ≠ "" then b3 else "GENÉRICO"

end Classifier

/-! ## The consolidator

Embeds `normalize_bank`, `infer_period`, `_coerce_period_cols`,
`_build_period_and_order_date` and `consolidate` from
`src/backend/extractors/unificador.py`.  DataFrames are lists of rows
plus column-presence flags; `NaN`, `None` and string cells of the
period columns are the `PVal` constructors (note Python's `float("nan")`
is truthy).  The `astype("Int64")` casts restrict the reachable period
cells to integer values, hence `ℤ`.  Inputs carry no `__seq`/`__order`
column (no embedded caller produces one), so the pre-sort on those
columns is skipped as in the source. -/

namespace Consol

/-- A cell of the `año`/`mes` columns, or a determined period value. -/
inductive PVal
  | num (v : ℤ)
  | nan
  | strv (s : String)
  | noneV
deriving DecidableEq, Repr

/-- Python truthiness of such a value (`float("nan")` is truthy). -/
def PVal.truthy : PVal → Bool
  | .num v => v ≠ 0
  | .nan => true
  | .strv s => s ≠ ""
  | .noneV => false

/-- `pandas.isna` on such a cell. -/
def PVal.isna : PVal → Bool
  | .nan => true
  | .noneV => true
  | _ => false

/-- Python `int(...)`-shaped non-negative digit parse reused for
numeric strings, extended with an optional sign. -/
def pyIntZ (cs : List Char) : Option ℤ :=
  match trimL cs with
  | '-' :: r => (pyIntNat r).map (fun n => -(n : ℤ))
  | t => (pyIntNat t).map (fun n => (n : ℤ))

/-- `pandas.to_numeric(cell, errors="coerce")` on a period cell
(integer-valued literals; a non-integer value would make the later
`astype("Int64")` raise, putting it outside the modelled space). -/
def PVal.toNumeric : PVal → Option ℤ
  | .num v => some v
  | .nan => none
  | .noneV => none
  | .strv s => pyIntZ s.data

/-- A cell of an amount column. -/
inductive AVal
  | num (v : ℚ)
  | nan
  | strv (s : String)
deriving DecidableEq, Repr

/-- Signed decimal-literal parse, the reachable fragment of
`pandas.to_numeric` on strings. -/
def pyRat (cs : List Char) : Option ℚ :=
  match trimL cs with
  | '-' :: r => (pyFloat r).map (fun q => -q)
  | t => pyFloat t

def AVal.toNumeric : AVal → Option ℚ
  | .num v => some v
  | .nan => none
  | .strv s => pyRat s.data

/-- One input row.  `detalle` stands for the columns `consolidate`
passes through untouched.  Cells of absent columns are ignored. -/
structure InRow where
  fecha : String
  anio : PVal
  mes : PVal
  banco : String
  moneda : String
  detalle : String
  debito : AVal
  credito : AVal
  saldo : AVal
deriving DecidableEq, Repr

/-- One input DataFrame with its column-presence flags and the
`attrs` fields `consolidate` reads. -/
structure InDF where
  rows : List InRow
  hasFecha : Bool
  hasAnio : Bool
  hasMes : Bool
  hasBanco : Bool
  hasMoneda : Bool
  hasDebito : Bool
  hasCredito : Bool
  hasSaldo : Bool
  attrsBank : Option String
  attrsSource : Option String
  rawLines : Option (List String)
deriving DecidableEq, Repr

/-- The optional `meta` dictionary of one input. -/
structure CMeta where
  bank : Option String
  year : Option ℤ
  month : Option ℤ
  currency : Option String
deriving DecidableEq, Repr

structure InItem where
  df : InDF
  meta : CMeta
deriving DecidableEq, Repr

/-- One consolidated output row (`fecha_orden` and `periodo_sort` as
date codes, `none` = `NaT`). -/
structure Row where
  fecha : String
  anio : ℤ
  mes : ℤ
  detalle : String
  debito : Option ℚ
  credito : Option ℚ
  saldo : Option ℚ
  moneda : String
  banco : String
  periodoSort : Option Nat
  fechaOrden : Option Nat
deriving DecidableEq, Repr

/-- The whitespace collapse `re.sub(r"\s+", " ", s).strip()`. -/
def splitPred (p : Char → Bool) : List Char → List (List Char)
  | [] => [[]]
  | c :: t =>
    match splitPred p t with
    | [] => [[c]]
    | g :: gs => if p c then [] :: g :: gs else (c :: g) :: gs

def collapseWs (cs : List Char) : List Char :=
  List.intercalate [' '] ((splitPred Char.isWhitespace cs).filter (· ≠ []))

/-- `normalize_bank` (unificador.py lines 16-36). -/
def normalizeBank (b : String) : String :=
  if b = "" then "DESCONOCIDO" else
  let s : String := ⟨collapseWs (upperL b.data)⟩
  if hasSub s "COMAFI" then "COMAFI" else
  if hasSub s "ICBC" then "ICBC" else
  if hasSub s "MACRO" then "MACRO" else
  if hasSub s "GALICIA" then "GALICIA" else
  if hasSub s "SANTANDER" then "SANTANDER" else
  if hasSub s "BBVA" then "BBVA" else
  if hasSub s "HSBC" then "HSBC" else s

def MESES : List String :=
  ["enero", "febrero", "marzo", "abril", "mayo", "junio",
   "julio", "agosto", "septiembre", "octubre", "noviembre", "diciembre"]

/-- Word character for the `\b` boundaries of the raw-line regexes
(ASCII fragment). -/
def isWordChar (c : Char) : Bool := c.isAlpha || c.isDigit || c = '_'

def startsWithCI (hay pat : List Char) : Bool := startsWithL (lowerL hay) pat

/-- Match one month name (case-insensitively, in list order) at the
head of `cs`; returns the 1-based month number and the rest. -/
def tryMonthsAt : List (Nat × String) → List Char → Option (Nat × List Char)
  | [], _ => none
  | (i, m) :: rest, cs =>
    if startsWithCI cs m.data then some (i, cs.drop m.data.length) else tryMonthsAt rest cs

/-- The tail of the `MES - YYYY` pattern after the month name:
optional whitespace, a dash (hyphen or em-dash), optional whitespace,
exactly four digits, and a word boundary. -/
def dashYearAt (cs : List Char) : Option Nat :=
  match cs.dropWhile Char.isWhitespace with
  | [] => none
  | c :: r2 =>
    if c = '-' ∨ c = '—' then
      let r3 := r2.dropWhile Char.isWhitespace
      let ds := r3.take 4
      if ds.length = 4 ∧ ds.all Char.isDigit ∧ ¬ (((r3.drop 4).head?.map isWordChar).getD false) then
        some (digitsToNat ds)
      else none
    else none

/-- `re.search` of the `MES - YYYY` pattern over one line: leftmost
position wins; a word boundary must precede the month name. -/
def scanMonthYear (prev : Option Char) (cs : List Char) : Option (ℤ × ℤ) :=
  match cs with
  | [] => none
  | c :: rest =>
    let here :=
      if (prev.map isWordChar).getD false then none
      else
        match tryMonthsAt (MESES.enum.map (fun p => (p.1 + 1, p.2))) cs with
        | some (m, r) => (dashYearAt r).map (fun y => ((y : ℤ), (m : ℤ)))
        | none => none
    match here with
    | some r => some r
    | none => scanMonthYear (some c) rest

/-- Exactly `k` digits at the head. -/
def digitsTake (cs : List Char) (k : Nat) : Option (Nat × List Char) :=
  let ds := cs.take k
  if ds.length = k ∧ ds.all Char.isDigit then some (digitsToNat ds, cs.drop k) else none

def slashAt : List Char → Option (List Char)
  | '/' :: r => some r
  | _ => none

/-- Tail group `\d{2,4}` with a trailing word boundary, greedy with
backtracking. -/
def yearTail (r : List Char) : Option Nat :=
  [4, 3, 2].findSome? (fun k =>
    match digitsTake r k with
    | some (v, rest) => if ((rest.head?.map isWordChar).getD false) then none else some v
    | none => none)

/-- The body of `\b(\d{1,2})/(\d{1,2})/(\d{2,4})\b` at one position,
with the backtracking order of a greedy regex. -/
def dmyAt (cs : List Char) : Option (Nat × Nat × Nat) :=
  [2, 1].findSome? (fun k1 =>
    match digitsTake cs k1 with
    | none => none
    | some (d, r1) =>
      match slashAt r1 with
      | none => none
      | some r2 =>
        [2, 1].findSome? (fun k2 =>
          match digitsTake r2 k2 with
          | none => none
          | some (mo, r3) =>
            match slashAt r3 with
            | none => none
            | some r4 => (yearTail r4).map (fun y => (d, mo, y))))

/-- `re.search` of the generic date pattern over one line. -/
def scanDate (prev : Option Char) (cs : List Char) : Option (Nat × Nat × Nat) :=
  match cs with
  | [] => none
  | c :: rest =>
    match (if (prev.map isWordChar).getD false then none else dmyAt cs) with
    | some r => some r
    | none => scanDate (some c) rest

/-- Earliest element of a list of dates (`Series.min` over the
non-`NaT` parses). -/
def minDate : List PDate → Option PDate
  | [] => none
  | h :: t => some (t.foldl (fun a b => if b.code < a.code then b else a) h)

/-- `infer_period` (unificador.py lines 41-79): earliest valid date of
the `fecha` column, else the `MES - YYYY` token pair over the raw
lines, else the first generic date with a plausible month, else
`(None, None)`. -/
def inferPeriod (df : InDF) : Option ℤ × Option ℤ :=
  let fromFecha : Option (ℤ × ℤ) :=
    if df.hasFecha then
      match minDate (df.rows.filterMap (fun r => pdParseDMY r.fecha)) with
      | some t => some ((t.y : ℤ), (t.m : ℤ))
      | none => none
    else none
  match fromFecha with
  | some p => (some p.1, some p.2)
  | none =>
    match df.rawLines with
    | none => (none, none)
    | some ls =>
      if ls = [] then (none, none) else
      match ls.findSome? (fun l => scanMonthYear none l.data) with
      | some p => (some p.1, some p.2)
      | none =>
        match ls.findSome? (fun l =>
            (scanDate none l.data).bind (fun v =>
              let y2 := if v.2.2 < 100 then 2000 + v.2.2 else v.2.2
              if 1 ≤ v.2.1 ∧ v.2.1 ≤ 12 then some ((y2 : ℤ), (v.2.1 : ℤ)) else none)) with
        | some p => (some p.1, some p.2)
        | none => (none, none)

/-- First truthy value of a falsy-chain `a or b or c` over optional
strings. -/
def orFalsy : List (Option String) → String
  | [] => ""
  | x :: t =>
    match x with
    | some s => if s ≠ "" then s else orFalsy t
    | none => orFalsy t

/-- The bank determination of `consolidate` (lines 141-144): the first
`banco` cell when that column exists, else the falsy-chain over
`meta["bank"]`, `attrs["bank"]`, `attrs["source"]`, then
`normalize_bank`. -/
def detBank (it : InItem) : String :=
  let b0 := if it.df.hasBanco then ((it.df.rows.head?.map (·.banco)).getD "") else ""
  let b1 := if b0 ≠ "" then b0
    else orFalsy [it.meta.bank, it.df.attrsBank, it.df.attrsSource]
  normalizeBank b1

def pvalOfZOpt : Option ℤ → PVal
  | some v => .num v
  | none => .noneV

/-- The `(year, month)` pair read from the first cells of existing
`año`/`mes` columns (`None` where the column is absent). -/
def colPair (it : InItem) : PVal × PVal :=
  (if it.df.hasAnio then ((it.df.rows.head?.map (·.anio)).getD .noneV) else .noneV,
   if it.df.hasMes then ((it.df.rows.head?.map (·.mes)).getD .noneV) else .noneV)

/-- The `(year, month)` pair from the metadata keys. -/
def metaPair (it : InItem) : PVal × PVal :=
  (pvalOfZOpt it.meta.year, pvalOfZOpt it.meta.month)

/-- The `(year, month)` pair from `infer_period`. -/
def inferPair (it : InItem) : PVal × PVal :=
  let p := inferPeriod it.df
  (pvalOfZOpt p.1, pvalOfZOpt p.2)

/-- The period determination of `consolidate` (lines 146-156): the
column cells win when both are truthy, else the metadata keys when
both are truthy, else `infer_period`. -/
def detPeriod (it : InItem) : PVal × PVal :=
  let c := colPair it
  if c.1.truthy && c.2.truthy then c
  else
    let m := metaPair it
    if m.1.truthy && m.2.truthy then m
    else inferPair it

/-- The priority chain exactly as the claim words it: explicit
metadata keys first, then the existing numeric columns, then
inference.  Stated for comparison with `detPeriod`. -/
def claimPeriodSpec (it : InItem) : PVal × PVal :=
  let m := metaPair it
  if m.1.truthy && m.2.truthy then m
  else
    let c := colPair it
    if c.1.truthy && c.2.truthy then c
    else inferPair it

/-- The amended priority chain: the first of
`[columns, metadata]` whose two components are both truthy, else
inference (date column first, raw lines second, else both null —
the order `infer_period` itself implements). -/
def amendedPeriodSpec (it : InItem) : PVal × PVal :=
  match [colPair it, metaPair it].find? (fun p => p.1.truthy && p.2.truthy) with
  | some p => p
  | none => inferPair it

/-- `pd.to_datetime(dict(year, month, day=1), errors="coerce")`:
first-of-month anchor, `NaT` for an impossible month or a date outside
the `Timestamp` range. -/
def mkPeriodDate (y m : ℤ) : Option Nat :=
  if 1 ≤ m ∧ m ≤ 12 ∧ 1677 ≤ y ∧ y ≤ 2262 then
    let t : PDate := ⟨y.toNat, m.toNat, 1⟩
    if tsOk t then some t.code else none
  else none

/-- The per-item processing of `consolidate` before concatenation:
bank and period determination, `fecha` cell cleanup, numeric
coercions, control-column fill, `_coerce_period_cols` and
`_build_period_and_order_date`. -/
def processItem (it : InItem) : List Row :=
  let bank := detBank it
  let p := detPeriod it
  let useDetY := ¬ it.df.hasAnio ∨ it.df.rows.all (fun r => r.anio.isna)
  let useDetM := ¬ it.df.hasMes ∨ it.df.rows.all (fun r => r.mes.isna)
  let cleanF := fun (s : String) => if s = "NaT" ∨ s = "nan" then "" else s
  let anioCell := fun (r : InRow) => if useDetY then p.1 else r.anio
  let mesCell := fun (r : InRow) => if useDetM then p.2 else r.mes
  let fechaD := fun (r : InRow) =>
    if it.df.hasFecha then pdParseDMY (cleanF r.fecha) else none
  let gate := it.df.hasFecha ∧
    (it.df.rows.any (fun r => ((anioCell r).toNumeric).isNone) ∨
     it.df.rows.any (fun r => ((mesCell r).toNumeric).isNone))
  it.df.rows.map (fun r =>
    let anioN := (anioCell r).toNumeric
    let mesN := (mesCell r).toNumeric
    let anio2 := if gate then
        (match anioN, fechaD r with
         | none, some t => some (t.y : ℤ)
         | v, _ => v)
      else anioN
    let mes2 := if gate then
        (match mesN, fechaD r with
         | none, some t => some (t.m : ℤ)
         | v, _ => v)
      else mesN
    let anioF := anio2.getD 2025
    let mesF := mes2.getD 1
    let pSort := mkPeriodDate anioF mesF
    { fecha := if it.df.hasFecha then cleanF r.fecha else ""
      anio := anioF
      mes := mesF
      detalle := r.detalle
      debito := if it.df.hasDebito then r.debito.toNumeric else none
      credito := if it.df.hasCredito then r.credito.toNumeric else none
      saldo := if it.df.hasSaldo then r.saldo.toNumeric else none
      moneda := if it.df.hasMoneda then r.moneda else (it.meta.currency.getD "ARS")
      banco := bank
      periodoSort := pSort
      fechaOrden := match fechaD r with
        | some t => some t.code
        | none => pSort })

/-- Code-point comparison of character lists (the string order pandas
sorts by). -/
def cmpChars : List Char → List Char → Ordering
  | [], [] => .eq
  | [], _ :: _ => .lt
  | _ :: _, [] => .gt
  | a :: as, b :: bs => if a < b then .lt else if b < a then .gt else cmpChars as bs

/-- `NaT` sorts last (`na_position="last"`). -/
def cmpOptNat : Option Nat → Option Nat → Ordering
  | some a, some b => compare a b
  | some _, none => .lt
  | none, some _ => .gt
  | none, none => .eq

/-- The lexicographic sort key `["banco", "año", "mes", "fecha_orden"]`
with nulls last on every component. -/
def keyCompare (a b : Row) : Ordering :=
  match cmpChars a.banco.data b.banco.data with
  | .eq =>
    match compare a.anio b.anio with
    | .eq =>
      match compare a.mes b.mes with
      | .eq => cmpOptNat a.fechaOrden b.fechaOrden
      | o => o
    | o => o
  | o => o

def keyLe (a b : Row) : Bool :=
  match keyCompare a b with
  | .gt => false
  | _ => true

/-- Insert after every element that compares less-or-equal: the
insertion step of a stable sort. -/
def insertStable (le : α → α → Bool) (a : α) : List α → List α
  | [] => [a]
  | b :: t => if le b a then b :: insertStable le a t else a :: b :: t

/-- Stable sort by a total preorder, the semantics of
`DataFrame.sort_values(kind="stable")`. -/
def sortStable (le : α → α → Bool) (l : List α) : List α :=
  l.foldl (fun acc x => insertStable le x acc) []

/-- The final `fecha` string pass of `consolidate` (lines 216-217). -/
def postClean (r : Row) : Row :=
  { r with fecha := if r.fecha = "NaT" ∨ r.fecha = "nan" then "" else r.fecha }

/-- `consolidate` (unificador.py lines 126-225) without the optional
spreadsheet write: per-item processing, concatenation, stable sort by
`(banco, año, mes, fecha_orden)` with nulls last. -/
def consolidate (inputs : List InItem) : List Row :=
  ((sortStable keyLe ((inputs.map processItem).flatten)).map postClean)

/-- The claim's characterisation of the ordering: pair every
concatenated row with its global index (statement order, then
intra-statement row order) and sort by the key extended with that
index as the final tie-break — the index makes the order total, so
this pins the unique stable result. -/
def pairLe (x y : Nat × Row) : Bool :=
  match keyCompare x.2 y.2 with
  | .lt => true
  | .gt => false
  | .eq => decide (x.1 ≤ y.1)

/-- The ledger as the claim describes it. -/
def specLedger (inputs : List InItem) : List Row :=
  let all := (inputs.map processItem).flatten
  ((sortStable pairLe all.enum).map (fun p => p.2)).map postClean

/-- A movement or balance row of the worked example. -/
def exRow (f det : String) (d c s : ℚ) : InRow :=
  { fecha := f, anio := .noneV, mes := .noneV, banco := "", moneda := "",
    detalle := det, debito := .num d, credito := .num c, saldo := .num s }

/-- A parser-shaped statement frame of the worked example: a `fecha`
column and the three amount columns, no period or bank columns. -/
def exDF (rs : List InRow) : InDF :=
  { rows := rs, hasFecha := true, hasAnio := false, hasMes := false, hasBanco := false,
    hasMoneda := false, hasDebito := true, hasCredito := true, hasSaldo := true,
    attrsBank := none, attrsSource := none, rawLines := none }

/-- Bank `X`, June 2025: opening balance, three movements, closing
balance, in statement order. -/
def juneStatement : InItem :=
  { df := exDF [exRow "01/06/2025" "SALDO ANTERIOR" 0 0 1000,
                exRow "05/06/2025" "PAGO A" 100 0 900,
                exRow "10/06/2025" "COBRO B" 0 200 1100,
                exRow "15/06/2025" "PAGO C" 50 0 1050,
                exRow "30/06/2025" "SALDO FINAL" 0 0 1050],
    meta := { bank := some "X", year := none, month := none, currency := none } }

/-- Bank `X`, July 2025, shaped like `juneStatement`. -/
def julyStatement : InItem :=
  { df := exDF [exRow "01/07/2025" "SALDO ANTERIOR" 0 0 1050,
                exRow "04/07/2025" "PAGO D" 30 0 1020,
                exRow "12/07/2025" "COBRO E" 0 80 1100,
                exRow "20/07/2025" "PAGO F" 10 0 1090,
                exRow "31/07/2025" "SALDO FINAL" 0 0 1090],
    meta := { bank := some "X", year := none, month := none, currency := none } }

/-- A statement whose table carries `año`/`mes` columns (2020, 5)
while its metadata says (2021, 6): the two period sources disagree,
separating the code's priority from the claimed one. -/
def periodProbe : InItem :=
  { df := { rows := [{ fecha := "", anio := .num 2020, mes := .num 5, banco := "",
                       moneda := "", detalle := "R", debito := .num 0, credito := .num 0,
                       saldo := .num 0 }],
            hasFecha := false, hasAnio := true, hasMes := true, hasBanco := false,
            hasMoneda := false, hasDebito := true, hasCredito := true, hasSaldo := true,
            attrsBank := none, attrsSource := none, rawLines := none },
    meta := { bank := some "X", year := some 2021, month := some 6, currency := none } }

end Consol

/-! ## The raw document reader

Embeds `PDFReader` from `src/backend/pdf_reader.py`.  The three
collaborators are an environment of `Except` outcomes: `.error` is an
exception raised inside the strategy (a missing or corrupt file makes
all three raise), `.ok` the value they deliver.  Every exception is
caught inside its strategy, so the embedding is total — the reader
cannot raise.  `extract_all` on a fresh reader starts with an empty
cache, so the single modelled call always misses it. -/

namespace Reader

/-- Camelot tables as cell grids. -/
abbrev CTable := List (List String)

structure Env where
  camelot : Except Unit (List CTable)
  plumber : Except Unit (List String)
  ocr : Except Unit (List String)

/-- The union type `List[DataFrame] | List[str]` of the raw result. -/
inductive RawData
  | tables (ts : List CTable)
  | lines (ls : List String)
deriving DecidableEq, Repr

/-- Python truthiness of the raw result (`if raw:`). -/
def RawData.isEmptyRaw : RawData → Bool
  | .tables ts => ts.isEmpty
  | .lines ls => ls.isEmpty

/-- Non-empty stripped cell values of one row joined by spaces
(`PDFReader._tables_to_lines`). -/
def tablesToLines (ts : List CTable) : List String :=
  (ts.map (fun df =>
    (df.map (fun row => (row.map stripStr).filter (· ≠ ""))).filterMap
      (fun values => if values ≠ [] then some (String.intercalate " " values) else none))).flatten

/-- Stripped non-empty lines of one text chunk. -/
def chunkLines (ch : String) : List String :=
  ((splitSep '\n' ch.data).map (fun l => stripStr ⟨l⟩)).filter (· ≠ "")

/-- `PDFReader._try_camelot`. -/
def tryCamelot (env : Env) : RawData × String :=
  match env.camelot with
  | .error _ => (.tables [], "")
  | .ok ts =>
    if ts ≠ [] then (.tables ts, String.intercalate "\n" (tablesToLines ts))
    else (.tables [], "")

/-- `PDFReader._try_pdfplumber`: per-page text, split into stripped
non-empty lines. -/
def tryPlumber (env : Env) : RawData × String :=
  match env.plumber with
  | .error _ => (.lines [], "")
  | .ok pages =>
    let lines := (pages.map chunkLines).flatten
    if lines ≠ [] then (.lines lines, String.intercalate "\n" lines)
    else (.lines [], "")

/-- `PDFReader._try_ocr`: the text joins the raw chunks, the raw data
holds the stripped non-empty lines. -/
def tryOcrPass (env : Env) : RawData × String :=
  match env.ocr with
  | .error _ => (.lines [], "")
  | .ok chunks =>
    let lines := (chunks.map chunkLines).flatten
    if lines ≠ [] then (.lines lines, String.intercalate "\n" chunks)
    else (.lines [], "")

/-- The ordered fallback of `PDFReader._extract_pdf`: the first
strategy with truthy raw content wins; `prefer_tables` swaps the first
two; an empty pair is returned when every strategy came back empty. -/
def runStrategies (env : Env) : List (Env → RawData × String) → RawData × String
  | [] => (.lines [], "")
  | s :: rest =>
    let r := s env
    if r.1.isEmptyRaw then runStrategies env rest else r

def extractPdf (env : Env) (preferTables : Bool) : RawData × String :=
  runStrategies env
    ((if preferTables then [tryCamelot, tryPlumber] else [tryPlumber, tryCamelot]) ++ [tryOcrPass])

/-- `PDFReader.extract_all`. -/
def extractAll (env : Env) (preferTables : Bool) : RawData × String :=
  extractPdf env preferTables

/-- `PDFReader.extract_text`. -/
def extractText (env : Env) (preferTables : Bool) : String :=
  (extractPdf env preferTables).2

end Reader

/-! ## Shared lemmas -/

theorem length_insertStable (le : α → α → Bool) (a : α) (l : List α) :
    (Consol.insertStable le a l).length = l.length + 1 := by
  induction l with
  | nil => rfl
  | cons b t ih =>
    simp only [Consol.insertStable]
    split <;> simp [ih]

theorem length_foldl_insertStable (le : α → α → Bool) (l acc : List α) :
    (l.foldl (fun L x => Consol.insertStable le x L) acc).length = acc.length + l.length := by
  induction l generalizing acc with
  | nil => simp
  | cons a t ih =>
    simp only [List.foldl]
    rw [ih, length_insertStable, List.length_cons]
    omega

theorem length_sortStable (le : α → α → Bool) (l : List α) :
    (Consol.sortStable le l).length = l.length := by
  simpa [Consol.sortStable] using length_foldl_insertStable le l []

theorem length_processItem (it : Consol.InItem) :
    (Consol.processItem it).length = it.df.rows.length := by
  simp [Consol.processItem]

/-! ## C4: the quick-pass relevance rule -/

/-- C4: the quick-pass filter marks a page relevant exactly when
(headers ≥ 2 and (dates ≥ 5 or amounts ≥ 5)) or (dates ≥ 8 and
amounts ≥ 6) or headers ≥ 3; in particular every page with header
count 3 is relevant whatever its date and amount counts. -/
theorem C4_quickpass_relevance_rule :
    (∀ s : OCR.PageStats,
      OCR.esPaginaRelevante s = true ↔
        ((2 ≤ s.headers ∧ (5 ≤ s.fechas ∨ 5 ≤ s.importes)) ∨
         (8 ≤ s.fechas ∧ 6 ≤ s.importes) ∨ 3 ≤ s.headers)) ∧
    (∀ fechas importes : Nat, OCR.esPaginaRelevante ⟨3, fechas, importes⟩ = true) := by
  constructor
  · intro s
    simp [OCR.esPaginaRelevante, and_assoc, or_assoc]
  · intro fechas importes
    simp [OCR.esPaginaRelevante]

/-! ## C3: what the full OCR pass actually recognises

On `misalignedDoc` the quick pass marks pages 1 and 3 relevant and
page 2 irrelevant; the full pass rasterises the whole range 1..3,
recognises the images of pages 1 and 2 — full-OCRing a page that
failed the quick test — and returns page 3 paired with page 2's
text. -/

/-- C3 (failing input): with relevant pages 1 and 3 and irrelevant
page 2, the code full-OCRs page 2 and pairs page 3 with page 2's
recognised text instead of its own. -/
theorem C3_full_pass_misaligned :
    OCR.relevantPages OCR.misalignedDoc = [1, 3] ∧
    OCR.esPaginaRelevante ⟨0, 0, 0⟩ = false ∧
    OCR.fullPassPages OCR.misalignedDoc = [1, 2] ∧
    OCR.extractTextPages OCR.misalignedDoc = [(1, "T1"), (3, "T2")] ∧
    OCR.misalignedDoc.fullText 3 = some "T3" ∧
    (3, "T3") ∉ OCR.extractTextPages OCR.misalignedDoc := by
  refine ⟨by decide, by decide, by decide, by decide, by decide, by decide⟩

/-! ## C2: the reader returns empty content when every strategy fails -/

/-- C2: for every environment (a missing or corrupt file makes all
three collaborators raise, which the strategies catch) and either
value of the prefer-tables flag, when all three strategies produce no
content, `extract_all` returns empty raw content and an empty text
string, and `extract_text` returns the empty string.  The embedding is
total, so no exception can escape. -/
theorem C2_reader_empty_on_failure (env : Reader.Env) (pt : Bool)
    (h : (Reader.tryCamelot env).1.isEmptyRaw = true ∧
         (Reader.tryPlumber env).1.isEmptyRaw = true ∧
         (Reader.tryOcrPass env).1.isEmptyRaw = true) :
    (Reader.extractAll env pt).1.isEmptyRaw = true ∧
    (Reader.extractAll env pt).2 = "" ∧
    Reader.extractText env pt = "" := by
  obtain ⟨h1, h2, h3⟩ := h
  cases pt <;>
  · simp only [Reader.extractAll, Reader.extractText, Reader.extractPdf, Bool.false_eq_true,
      if_false, if_true, List.cons_append, List.nil_append]
    simp only [Reader.runStrategies, h1, h2, h3, if_true]
    exact ⟨rfl, trivial, trivial⟩

/-- Witness for C2: the all-raising environment of a missing file. -/
theorem C2_reader_empty_on_failure_witness :
    ((Reader.tryCamelot ⟨.error (), .error (), .error ()⟩).1.isEmptyRaw = true ∧
     (Reader.tryPlumber ⟨.error (), .error (), .error ()⟩).1.isEmptyRaw = true ∧
     (Reader.tryOcrPass ⟨.error (), .error (), .error ()⟩).1.isEmptyRaw = true) ∧
    (Reader.extractAll ⟨.error (), .error (), .error ()⟩ false).1.isEmptyRaw = true ∧
    (Reader.extractAll ⟨.error (), .error (), .error ()⟩ false).2 = "" ∧
    Reader.extractText ⟨.error (), .error (), .error ()⟩ false = "" :=
  ⟨by decide, C2_reader_empty_on_failure ⟨.error (), .error (), .error ()⟩ false (by decide)⟩

/-! ## C5: the period determination priority -/

/-- C5 (counterexample): on a statement whose table columns say
(2020, 5) and whose metadata says (2021, 6), the code takes the
columns while the claim's priority order takes the metadata, so the
claim as stated fails. -/
theorem C5_period_priority_counterexample :
    Consol.detPeriod Consol.periodProbe = (.num 2020, .num 5) ∧
    Consol.claimPeriodSpec Consol.periodProbe = (.num 2021, .num 6) ∧
    Consol.detPeriod Consol.periodProbe ≠ Consol.claimPeriodSpec Consol.periodProbe := by
  refine ⟨by decide, by decide, by decide⟩

/-- C5 (amended): the pair is determined by the first of
existing-columns-first-cells and metadata whose two components are
both truthy, else by `infer_period` (date column's earliest valid
date, then raw lines, then both null); and the rows of every
statement are included in the ledger whatever the outcome. -/
theorem C5_period_priority_amended :
    (∀ it : Consol.InItem, Consol.detPeriod it = Consol.amendedPeriodSpec it) ∧
    (∀ inputs : List Consol.InItem,
      (Consol.consolidate inputs).length = (inputs.map (fun it => it.df.rows.length)).sum) := by
  constructor
  · intro it
    unfold Consol.detPeriod Consol.amendedPeriodSpec
    simp only [List.find?]
    by_cases h1 : ((Consol.colPair it).1.truthy && (Consol.colPair it).2.truthy) = true
    · simp [h1]
    · simp only [Bool.not_eq_true] at h1
      by_cases h2 : ((Consol.metaPair it).1.truthy && (Consol.metaPair it).2.truthy) = true
      · simp [h1, h2]
      · simp only [Bool.not_eq_true] at h2
        simp [h1, h2]
  · intro inputs
    unfold Consol.consolidate
    rw [List.length_map, length_sortStable, List.length_flatten, List.map_map,
      show (List.length ∘ Consol.processItem) = (fun it : Consol.InItem => it.df.rows.length)
        from funext length_processItem]

/-! ## C8: bank classification priority -/

/-- C8 (counterexample): the filename token `FRANCES` is not on the
allow-list, so stages (1) and (2) miss; the claim's stage (3) scans
only the document text and answers `MACRO`, but the code scans the
filename against the alias phrases first and answers `BBVA` — the
claim's stage list, as stated, disagrees with the code. -/
theorem C8_bank_priority_counterexample :
    Classifier.bankHint "clientes-FRANCES-jun.pdf" ["BANCO MACRO"] = "BBVA" ∧
    Classifier.claimBankSpec "clientes-FRANCES-jun.pdf" ["BANCO MACRO"] = "MACRO" ∧
    Classifier.bankHint "clientes-FRANCES-jun.pdf" ["BANCO MACRO"] ≠
      Classifier.claimBankSpec "clientes-FRANCES-jun.pdf" ["BANCO MACRO"] := by
  refine ⟨by decide, by decide, by decide⟩

/-- C8 (amended): the resolution equals the four-stage priority chain
with stage (3) scanning the filename and then the text sample against
the alias phrases; consequently, whenever any filename-based stage
identifies a bank, the result is independent of the document content. -/
theorem C8_bank_priority_amended :
    (∀ (fn : String) (lines : List String),
      Classifier.bankHint fn lines = Classifier.amendedBankSpec fn lines) ∧
    (∀ (fn : String) (lines lines2 : List String),
      (((Classifier.parseFilenameMetadata fn).getD Classifier.emptyMeta).banco ≠ "" ∨
       Classifier.detectBankFromFilename fn ≠ "" ∨
       Classifier.hintScan ⟨upperL fn.data⟩ ≠ none) →
      Classifier.bankHint fn lines = Classifier.bankHint fn lines2) := by
  constructor
  · intro fn lines
    rfl
  · intro fn lines lines2 h
    unfold Classifier.bankHint Classifier.detectBankHint
    by_cases h1 : ((Classifier.parseFilenameMetadata fn).getD Classifier.emptyMeta).banco = ""
    · by_cases h2 : Classifier.detectBankFromFilename fn = ""
      · rcases h with h | h | h
        · exact absurd h1 h
        · exact absurd h2 h
        · obtain ⟨c, hc⟩ := Option.ne_none_iff_exists'.mp h
          simp [h1, h2, hc]
      · simp [h1, h2]
    · simp [h1]

/-- Witness for C8 (amended): a filename whose alias scan hits `BBVA`
makes the result independent of two different content samples. -/
theorem C8_bank_priority_amended_witness :
    (((Classifier.parseFilenameMetadata "clientes-FRANCES-jun.pdf").getD Classifier.emptyMeta).banco ≠ "" ∨
     Classifier.detectBankFromFilename "clientes-FRANCES-jun.pdf" ≠ "" ∨
     Classifier.hintScan ⟨upperL "clientes-FRANCES-jun.pdf".data⟩ ≠ none) ∧
    Classifier.bankHint "clientes-FRANCES-jun.pdf" ["BANCO MACRO"] =
      Classifier.bankHint "clientes-FRANCES-jun.pdf" [] :=
  ⟨by decide,
   C8_bank_priority_amended.2 "clientes-FRANCES-jun.pdf" ["BANCO MACRO"] [] (by decide)⟩

/-! ## C9: the generic parser emits non-negative debit and credit -/

theorem mkTableRow_nonneg (nowYear : Nat) (cF cD cDeb cCred cS : Option String)
    (r : Generic.RawRow) (h : Generic.mkTableRow nowYear cF cD cDeb cCred cS = some r) :
    0 ≤ r.debito ∧ 0 ≤ r.credito := by
  unfold Generic.mkTableRow at h
  dsimp only at h
  split at h
  · exact absurd h (by simp)
  · obtain rfl := Option.some.inj h
    exact ⟨le_max_left 0 _, le_max_left 0 _⟩

theorem tableGo_nonneg (nowYear : Nat) (iF iD iDeb iCred iS : Option Nat)
    (rs : List (List String)) :
    ∀ r ∈ Generic.tableGo nowYear iF iD iDeb iCred iS rs, 0 ≤ r.debito ∧ 0 ≤ r.credito := by
  induction rs with
  | nil => intro r hr; simp [Generic.tableGo] at hr
  | cons row rest ih =>
    intro r hr
    unfold Generic.tableGo at hr
    split at hr
    · simp at hr
    · split at hr
      · exact ih r hr
      · rcases List.mem_cons.mp hr with rfl | hmem
        · rename_i hrow
          exact mkTableRow_nonneg _ _ _ _ _ _ _ hrow
        · exact ih r hmem

theorem mkMovRow_nonneg (nowYear : Nat) (fecha detalle : String)
    (deb cred : Option String) (saldo : String) :
    0 ≤ (Generic.mkMovRow nowYear fecha detalle deb cred saldo).debito ∧
    0 ≤ (Generic.mkMovRow nowYear fecha detalle deb cred saldo).credito := by
  dsimp only [Generic.mkMovRow]
  constructor <;> · split <;> linarith

theorem scanLines_nonneg (nowYear : Nat) (ls : List Generic.TLine) :
    ∀ r ∈ (Generic.scanLines nowYear ls).2.2, 0 ≤ r.debito ∧ 0 ≤ r.credito := by
  induction ls with
  | nil => simp [Generic.scanLines]
  | cons l rest ih =>
    intro r hr
    unfold Generic.scanLines at hr
    cases hsc : Generic.scanLines nowYear rest with
    | mk a rest2 =>
      cases rest2 with
      | mk f rs =>
        rw [hsc] at hr
        have ih2 : ∀ x ∈ rs, 0 ≤ x.debito ∧ 0 ≤ x.credito := by
          intro x hx
          exact ih x (by rw [hsc]; exact hx)
        cases l with
        | saldoAnt amt => cases a <;> exact ih2 r hr
        | saldoFin amt => cases f <;> exact ih2 r hr
        | mov fecha detalle deb cred saldo =>
          rcases List.mem_cons.mp hr with rfl | hmem
          · exact mkMovRow_nonneg nowYear fecha detalle deb cred saldo
          · exact ih2 r hmem
        | plain => exact ih2 r hr

theorem finalizeRow_debito (r : Generic.RawRow) :
    (Generic.finalizeRow r).debito = r.debito := by
  unfold Generic.finalizeRow
  split <;> rfl

theorem finalizeRow_credito (r : Generic.RawRow) :
    (Generic.finalizeRow r).credito = r.credito := by
  unfold Generic.finalizeRow
  split <;> rfl

/-- C9: every row emitted by the generic fallback parser — table rows
(clamped at zero), text movement rows (absolute values) and balance
rows (zero) — has a non-negative debit and a non-negative credit,
whatever the inputs and whatever the regex matcher produced. -/
theorem C9_generic_rows_nonneg (nowYear : Nat) (inp : Generic.GInput) :
    ((Generic.parse nowYear inp).all
      (fun r => decide (0 ≤ r.debito) && decide (0 ≤ r.credito))) = true := by
  rw [List.all_eq_true]
  intro r hr
  unfold Generic.parse at hr
  simp only [List.mem_map] at hr
  obtain ⟨r0, hr0, rfl⟩ := hr
  rw [Bool.and_eq_true, decide_eq_true_eq, decide_eq_true_eq,
    finalizeRow_debito, finalizeRow_credito]
  simp only [List.mem_append] at hr0
  rcases hr0 with (ha | hf) | (ht | hs)
  · revert ha
    split
    · intro ha
      simp only [List.mem_singleton] at ha
      subst ha
      exact ⟨le_refl 0, le_refl 0⟩
    · intro ha
      simp at ha
  · revert hf
    split
    · intro hf
      simp only [List.mem_singleton] at hf
      subst hf
      exact ⟨le_refl 0, le_refl 0⟩
    · intro hf
      simp at hf
  · simp only [List.mem_flatten, List.mem_map] at ht
    obtain ⟨block, ⟨tb, _, rfl⟩, hmem⟩ := ht
    exact tableGo_nonneg _ _ _ _ _ _ _ _ hmem
  · exact scanLines_nonneg _ _ _ hs

/-! ## C10: filename metadata parsing is total and defaults safely -/

theorem firstIdxP_lt_length {p : α → Bool} :
    ∀ {l : List α} {i : Nat}, Classifier.firstIdxP p l = some i → i < l.length := by
  intro l
  induction l with
  | nil => intro i h; simp [Classifier.firstIdxP] at h
  | cons a t ih =>
    intro i h
    unfold Classifier.firstIdxP at h
    split at h
    · obtain rfl := Option.some.inj h
      simp
    · cases hj : Classifier.firstIdxP p t with
      | none => rw [hj] at h; simp at h
      | some j =>
        rw [hj] at h
        have h2 : j + 1 = i := Option.some.inj h
        have := ih hj
        simp only [List.length_cons]
        omega

theorem firstIdxP_eq_none_of_all {p : α → Bool} {l : List α}
    (h : ∀ a ∈ l, p a = false) : Classifier.firstIdxP p l = none := by
  induction l with
  | nil => rfl
  | cons a t ih =>
    unfold Classifier.firstIdxP
    rw [h a (List.mem_cons_self a t), ih (fun x hx => h x (List.mem_cons_of_mem a hx))]
    rfl

/-- C10: `parse_filename_metadata` is total (no partial list access is
ever out of range), and it returns the empty-metadata sentinel
whenever the stem has fewer than three dash-separated parts, no part
equals an allow-listed bank, or the first matching bank token is the
last part. -/
theorem C10_filename_metadata_total_and_sentinel (fn : String) :
    (Classifier.parseFilenameMetadata fn).isSome = true ∧
    (((Classifier.partsOf fn).length < 3 ∨
      (∀ p ∈ Classifier.partsOf fn, p ∉ Classifier.BANKS) ∨
      Classifier.firstIdxP (fun p => decide (p ∈ Classifier.BANKS)) (Classifier.partsOf fn)
        = some ((Classifier.partsOf fn).length - 1)) →
     Classifier.parseFilenameMetadata fn = some Classifier.emptyMeta) := by
  unfold Classifier.parseFilenameMetadata
  by_cases hlen : (Classifier.partsOf fn).length < 3
  · simp [hlen]
  · cases hidx : Classifier.firstIdxP (fun p => decide (p ∈ Classifier.BANKS)) (Classifier.partsOf fn) with
    | none => simp [hlen, hidx]
    | some i =>
      by_cases hg : (Classifier.partsOf fn).length - 1 ≤ i
      · simp [hlen, hidx, hg]
      · have hilt : i < (Classifier.partsOf fn).length - 1 := by omega
        have hlen3 : 3 ≤ (Classifier.partsOf fn).length := by omega
        have hne : Classifier.partsOf fn ≠ [] := by
          intro hcon
          rw [hcon] at hlen3
          simp at hlen3
        obtain ⟨b, hb⟩ : ∃ b, (Classifier.partsOf fn).get? i = some b :=
          ⟨_, List.get?_eq_get (by omega)⟩
        obtain ⟨lastp, hlast⟩ : ∃ a, (Classifier.partsOf fn).getLast? = some a :=
          Option.isSome_iff_exists.mp (List.getLast?_isSome.mpr hne)
        obtain ⟨pm2, hpm2⟩ : ∃ a, (Classifier.partsOf fn).get? ((Classifier.partsOf fn).length - 2) = some a :=
          ⟨_, List.get?_eq_get (by omega)⟩
        constructor
        · simp only [hlen, if_false, hidx, hg, hb, hlast, hpm2, Option.bind_eq_bind,
            Option.some_bind]
          split <;> simp [hb, hlast, hpm2]
        · intro hyp
          rcases hyp with h | h | h
          · exact absurd h hlen
          · rw [firstIdxP_eq_none_of_all (fun x hx => by
              simp only [decide_eq_false_iff_not]
              exact h x hx)] at hidx
            exact absurd hidx (by simp)
          · rw [Option.some.injEq] at h
            omega

/-! ## C6: amount normalisation -/

theorem digitNe {c : Char} (h : c.isDigit = true) {d : Char} (hd : d.isDigit = false) : c ≠ d := by
  intro he
  subst he
  rw [h] at hd
  exact absurd hd (by simp)

theorem digitNotWs {c : Char} (h : c.isDigit = true) : c.isWhitespace = false := by
  simp only [Char.isWhitespace]
  simp only [Bool.or_eq_false_iff, decide_eq_false_iff_not]
  refine ⟨⟨⟨?_, ?_⟩, ?_⟩, ?_⟩ <;>
    · intro he
      subst he
      exact absurd h (by decide)

theorem dropWhile_eq_self_of_all {p : Char → Bool} {l : List Char}
    (h : ∀ x ∈ l, p x = false) : l.dropWhile p = l := by
  cases l with
  | nil => rfl
  | cons a t => simp [List.dropWhile, h a (List.mem_cons_self a t)]

theorem trimL_eq_self {l : List Char} (h : ∀ x ∈ l, x.isWhitespace = false) :
    trimL l = l := by
  unfold trimL
  rw [dropWhile_eq_self_of_all h,
    dropWhile_eq_self_of_all (fun x hx => h x (List.mem_reverse.mp hx)),
    List.reverse_reverse]

theorem takeWhile_eq_self_of_all {p : Char → Bool} {l : List Char}
    (h : ∀ x ∈ l, p x = true) : l.takeWhile p = l := by
  induction l with
  | nil => rfl
  | cons a t ih =>
    simp [List.takeWhile, h a (List.mem_cons_self a t),
      ih (fun x hx => h x (List.mem_cons_of_mem a hx))]

theorem takeWhile_dot_append (A B : List Char) (hA : ∀ x ∈ A, x ≠ '.') :
    (A ++ '.' :: B).takeWhile (· ≠ '.') = A ∧
    (A ++ '.' :: B).dropWhile (· ≠ '.') = '.' :: B := by
  induction A with
  | nil => simp [List.takeWhile, List.dropWhile]
  | cons a t ih =>
    have ha : a ≠ '.' := hA a (List.mem_cons_self a t)
    have iht := ih (fun x hx => hA x (List.mem_cons_of_mem a hx))
    simp only [List.cons_append, List.takeWhile, List.dropWhile, decide_eq_true_eq]
    constructor
    · simpa [ha] using iht.1
    · simpa [ha] using iht.2


theorem filter_dot_flatten (gs : List (List Char))
    (h : ∀ g ∈ gs, ∀ x ∈ g, x.isDigit = true) :
    ((gs.map (fun g => '.' :: g)).flatten).filter (· ≠ '.') = gs.flatten := by
  induction gs with
  | nil => rfl
  | cons g t ih =>
    have hg := h g (List.mem_cons_self g t)
    have hgf : ('.' :: g).filter (· ≠ '.') = g := by
      rw [List.filter_cons_of_neg (by simp)]
      exact List.filter_eq_self.mpr (fun x hx => by
        simp only [decide_eq_true_eq]
        exact digitNe (hg x hx) (by decide))
    simp only [List.map_cons, List.flatten_cons, List.filter_append, hgf,
      ih (fun g2 hg2 => h g2 (List.mem_cons_of_mem g hg2))]

theorem map_comma_eq_self (l : List Char) (h : ∀ x ∈ l, x.isDigit = true) :
    l.map (fun c => if c = ',' then '.' else c) = l := by
  induction l with
  | nil => rfl
  | cons a t ih =>
    simp only [List.map_cons]
    rw [if_neg (digitNe (h a (List.mem_cons_self a t)) (by decide)),
      ih (fun x hx => h x (List.mem_cons_of_mem a hx))]


theorem toAmountL_grouped (negLead negTrail : Bool) (g0 : List Char) (gs : List (List Char))
    (c1 c2 : Char) (hg0 : g0 ≠ []) (hg0d : ∀ x ∈ g0, x.isDigit = true)
    (hgs : ∀ g ∈ gs, ∀ x ∈ g, x.isDigit = true)
    (hc1 : c1.isDigit = true) (hc2 : c2.isDigit = true) :
    toAmountL ((if negLead then ['-'] else []) ++
        (g0 ++ (gs.map (fun g => '.' :: g)).flatten ++ [',', c1, c2]) ++
        (if negTrail then ['-'] else []))
      = (if negLead || negTrail then (-1 : ℚ) else 1) *
        ((digitsToNat (g0 ++ gs.flatten) : ℚ) + (digitsToNat [c1, c2] : ℚ) / 100) := by
  obtain ⟨d0, g0t, rfl⟩ : ∃ d t, g0 = d :: t := by
    cases g0 with
    | nil => exact absurd rfl hg0
    | cons d t => exact ⟨d, t, rfl⟩
  set D := (gs.map (fun g => '.' :: g)).flatten with hDdef
  set body := (d0 :: g0t) ++ D ++ [',', c1, c2] with hbodydef
  set full := (if negLead then ['-'] else []) ++ body ++ (if negTrail then ['-'] else []) with hfulldef
  have hD : ∀ x ∈ D, x = '.' ∨ x.isDigit = true := by
    intro x hx
    rw [hDdef] at hx
    simp only [List.mem_flatten, List.mem_map] at hx
    obtain ⟨blk, ⟨g, hgmem, rfl⟩, hxblk⟩ := hx
    rcases List.mem_cons.mp hxblk with rfl | hxg
    · exact Or.inl rfl
    · exact Or.inr (hgs g hgmem x hxg)
  have hbody : ∀ x ∈ body, x = '.' ∨ x = ',' ∨ x.isDigit = true := by
    intro x hx
    rw [hbodydef] at hx
    simp only [List.append_assoc, List.mem_append, List.mem_cons] at hx
    rcases hx with hx | hx | hx
    · exact Or.inr (Or.inr (hg0d x (List.mem_cons.mpr hx)))
    · rcases hD x hx with rfl | hx2
      · exact Or.inl rfl
      · exact Or.inr (Or.inr hx2)
    · rcases hx with rfl | hx
      · exact Or.inr (Or.inl rfl)
      · rcases hx with rfl | hx
        · exact Or.inr (Or.inr hc1)
        · rcases hx with rfl | hx
          · exact Or.inr (Or.inr hc2)
          · simp at hx
  have hfull : ∀ x ∈ full, x = '-' ∨ x = '.' ∨ x = ',' ∨ x.isDigit = true := by
    intro x hx
    rw [hfulldef] at hx
    simp only [List.mem_append] at hx
    rcases hx with (hx | hx) | hx
    · cases negLead <;> simp_all
    · rcases hbody x hx with h | h | h
      · exact Or.inr (Or.inl h)
      · exact Or.inr (Or.inr (Or.inl h))
      · exact Or.inr (Or.inr (Or.inr h))
    · cases negTrail <;> simp_all
  unfold toAmountL
  rw [trimL_eq_self (by
    intro x hx
    rcases hfull x hx with rfl | rfl | rfl | h
    · decide
    · decide
    · decide
    · exact digitNotWs h)]
  rw [List.filter_eq_self.mpr (by
    intro x hx
    rcases hfull x hx with rfl | rfl | rfl | h
    · decide
    · decide
    · decide
    · simp only [decide_eq_true_eq]
      exact ⟨digitNe h (by decide), digitNe h (by decide)⟩)]
  have hd0 : d0.isDigit = true := hg0d d0 (List.mem_cons_self d0 g0t)
  have hd0m : d0 ≠ '-' := digitNe hd0 (show ('-').isDigit = false by decide)
  have hd0p : d0 ≠ '+' := digitNe hd0 (show ('+').isDigit = false by decide)
  have hc2m : c2 ≠ '-' := digitNe hc2 (show ('-').isDigit = false by decide)
  have hc1c : c1 ≠ ',' := digitNe hc1 (show (',').isDigit = false by decide)
  have hc2c : c2 ≠ ',' := digitNe hc2 (show (',').isDigit = false by decide)
  have hbodyhead : body.head? = some d0 := by
    rw [hbodydef]
    simp
  have hbodylast : body.getLast? = some c2 := by
    rw [hbodydef]
    rw [List.getLast?_append]
    rfl
  have hheadfact : (decide (full.head? = some '-')) = negLead := by
    cases negLead with
    | false =>
      have hh : full.head? = some d0 := by
        rw [hfulldef, hbodydef]
        simp
      rw [hh]
      simp [Option.some.injEq, hd0m]
    | true =>
      have hh : full.head? = some '-' := by
        rw [hfulldef]
        simp
      rw [hh]
      simp
  have hlastfact : (decide (full.getLast? = some '-')) = negTrail := by
    cases negTrail with
    | false =>
      have hh : full.getLast? = some c2 := by
        rw [hfulldef]
        simp only [Bool.false_eq_true, if_false, List.append_nil]
        rw [List.getLast?_append, hbodylast]
        rfl
      rw [hh]
      simp [Option.some.injEq, hc2m]
    | true =>
      have hh : full.getLast? = some '-' := by
        rw [hfulldef]
        rw [List.append_assoc, List.getLast?_append]
        simp
      rw [hh]
      simp
  have hbodynm : body.filter (fun x => decide (x ≠ '-')) = body :=
    List.filter_eq_self.mpr (by
      intro x hx
      rcases hbody x hx with rfl | rfl | h
      · decide
      · decide
      · simp only [decide_eq_true_eq]
        exact digitNe h (show ('-').isDigit = false by decide))
  have hfminus : full.filter (fun x => decide (x ≠ '-')) = body := by
    rw [hfulldef]
    simp only [List.filter_append, hbodynm]
    cases negLead <;> cases negTrail <;> simp
  have hAdig : ∀ x ∈ (d0 :: g0t) ++ gs.flatten, x.isDigit = true := by
    intro x hx
    rcases List.mem_append.mp hx with h | h
    · exact hg0d x h
    · simp only [List.mem_flatten] at h
      obtain ⟨g, hgmem, hxg⟩ := h
      exact hgs g hgmem x hxg
  have hfdot : body.filter (fun x => decide (x ≠ '.'))
      = ((d0 :: g0t) ++ gs.flatten) ++ [',', c1, c2] := by
    rw [hbodydef]
    simp only [List.filter_append]
    rw [List.filter_eq_self.mpr (show ∀ x ∈ d0 :: g0t, (fun x => decide (x ≠ '.')) x = true by
        intro x hx
        simp only [decide_eq_true_eq]
        exact digitNe (hg0d x hx) (by decide)),
      filter_dot_flatten gs hgs,
      List.filter_eq_self.mpr (show ∀ x ∈ [',', c1, c2], (fun x => decide (x ≠ '.')) x = true by
        intro x hx
        rcases List.mem_cons.mp hx with rfl | hx
        · decide
        · rcases List.mem_cons.mp hx with rfl | hx
          · simp only [decide_eq_true_eq]
            exact digitNe hc1 (by decide)
          · rcases List.mem_cons.mp hx with rfl | hx
            · simp only [decide_eq_true_eq]
              exact digitNe hc2 (by decide)
            · simp at hx)]
  have hmap : (((d0 :: g0t) ++ gs.flatten) ++ [',', c1, c2]).map (fun c => if c = ',' then '.' else c)
      = ((d0 :: g0t) ++ gs.flatten) ++ '.' :: [c1, c2] := by
    rw [List.map_append, map_comma_eq_self _ hAdig]
    simp [hc1c, hc2c]
  have hpf : pyFloat (((d0 :: g0t) ++ gs.flatten) ++ '.' :: [c1, c2])
      = some ((digitsToNat ((d0 :: g0t) ++ gs.flatten) : ℚ) + (digitsToNat [c1, c2] : ℚ) / 100) := by
    unfold pyFloat
    have hplus : ((((d0 :: g0t) ++ gs.flatten) ++ '.' :: [c1, c2]).head? = some '+') = False := by
      simp [Option.some.injEq, hd0p]
    obtain ⟨ht, hd⟩ := takeWhile_dot_append ((d0 :: g0t) ++ gs.flatten) [c1, c2]
      (fun x hx => digitNe (hAdig x hx) (show ('.').isDigit = false by decide))
    rw [if_neg (by simp [hd0p])]
    dsimp only
    rw [ht, hd]
    have hc1d : c1 ≠ '.' := digitNe hc1 (show ('.').isDigit = false by decide)
    have hc2d : c2 ≠ '.' := digitNe hc2 (show ('.').isDigit = false by decide)
    dsimp only
    have hcond : ([c1, c2].all (fun x => decide (x ≠ '.')) = true) ∧
        (¬(d0 :: g0t ++ gs.flatten) = [] ∨ ¬([c1, c2] : List Char) = []) ∧
        ((d0 :: g0t ++ gs.flatten).all Char.isDigit = true) ∧
        ([c1, c2].all Char.isDigit = true) :=
      ⟨by simp [hc1d, hc2d], Or.inl (by simp), List.all_eq_true.mpr hAdig, by simp [hc1, hc2]⟩
    rw [if_pos hcond]
    norm_num
  dsimp only
  rw [hfminus, hfdot, hmap, hpf, hheadfact, hlastfact]
  dsimp only
  cases hb : (negLead || negTrail) <;> simp [hb]

/-- C6 (counterexample): a parenthesized amount is not stripped of its
parentheses, so `float` fails inside `_to_amount` and the fallback 0.0
is returned instead of the negative value the claim requires. -/
theorem C6_amount_paren_counterexample :
    toAmount (some "(200,00)") = 0 ∧ ((0 : ℚ) ≠ -200) :=
  ⟨by decide, by norm_num⟩

/-- C6 (amended): for every amount string matching the grouped decimal
pattern, in plain form or carrying a leading or trailing minus,
`_to_amount` returns the exact signed value; in particular
`1.234.567,89` maps to 1234567.89 and `200,00-` to -200. -/
theorem C6_amount_normalization :
    (∀ (negLead negTrail : Bool) (g0 : List Char) (gs : List (List Char)) (c1 c2 : Char),
      g0 ≠ [] → g0.length ≤ 3 → (∀ x ∈ g0, x.isDigit = true) →
      (∀ g ∈ gs, g.length = 3 ∧ ∀ x ∈ g, x.isDigit = true) →
      c1.isDigit = true → c2.isDigit = true →
      toAmount (some ⟨(if negLead then ['-'] else []) ++
          (g0 ++ (gs.map (fun g => '.' :: g)).flatten ++ [',', c1, c2]) ++
          (if negTrail then ['-'] else [])⟩)
        = (if negLead || negTrail then (-1 : ℚ) else 1) *
          ((digitsToNat (g0 ++ gs.flatten) : ℚ) + (digitsToNat [c1, c2] : ℚ) / 100)) ∧
    toAmount (some "1.234.567,89") = 1234567.89 ∧
    toAmount (some "200,00-") = -200 := by
  have htA : ∀ (l : List Char), l ≠ [] → toAmount (some ⟨l⟩) = toAmountL l := by
    intro l hl
    show (if (⟨l⟩ : String) = "" then (0 : ℚ) else toAmountL (String.mk l).data) = toAmountL l
    rw [if_neg (fun h => hl (congrArg String.data h))]
  have hgen := fun negLead negTrail g0 gs c1 c2 h1 h2 h3 h4 h5 =>
    toAmountL_grouped negLead negTrail g0 gs c1 c2 h1 h2 h3 h4 h5
  refine ⟨?_, ?_, ?_⟩
  case refine_2 =>
    have e1 := toAmountL_grouped false false ['1'] [['2', '3', '4'], ['5', '6', '7']] '8' '9'
      (by decide) (by decide) (by decide) (by decide) (by decide)
    have hs : ("1.234.567,89" : String).data
        = (if false then ['-'] else []) ++
          ((['1'] : List Char) ++
            (([['2', '3', '4'], ['5', '6', '7']] : List (List Char)).map
              (fun g => '.' :: g)).flatten ++ [',', '8', '9']) ++
          (if false then ['-'] else []) := by decide
    show (if ("1.234.567,89" : String) = "" then (0 : ℚ)
      else toAmountL ("1.234.567,89" : String).data) = 1234567.89
    rw [if_neg (by decide), hs, e1]
    norm_num [show digitsToNat ['1', '2', '3', '4', '5', '6', '7'] = 1234567 by decide,
      show digitsToNat ['8', '9'] = 89 by decide]
  case refine_3 =>
    have e2 := toAmountL_grouped false true ['2', '0', '0'] [] '0' '0'
      (by decide) (by decide) (by decide) (by decide) (by decide)
    have hs : ("200,00-" : String).data
        = (if false then ['-'] else []) ++
          ((['2', '0', '0'] : List Char) ++
            (([] : List (List Char)).map (fun g => '.' :: g)).flatten ++ [',', '0', '0']) ++
          (if true then ['-'] else []) := by decide
    show (if ("200,00-" : String) = "" then (0 : ℚ)
      else toAmountL ("200,00-" : String).data) = -200
    rw [if_neg (by decide), hs, e2]
    norm_num [show digitsToNat ['2', '0', '0'] = 200 by decide,
      show digitsToNat ['0', '0'] = 0 by decide]
  case refine_1 =>
    intro negLead negTrail g0 gs c1 c2 hne _hlen hd hgs hc1 hc2
    have hne2 : (if negLead then ['-'] else []) ++
        (g0 ++ (gs.map (fun g => '.' :: g)).flatten ++ [',', c1, c2]) ++
        (if negTrail then ['-'] else []) ≠ [] := by
      simp
    rw [htA _ hne2]
    exact toAmountL_grouped negLead negTrail g0 gs c1 c2 hne hd
      (fun g hg => (hgs g hg).2) hc1 hc2

/-- Witness for C6 (amended): the trailing-minus instance `200,00-`. -/
theorem C6_amount_normalization_witness :
    ((['2', '0', '0'] : List Char) ≠ [] ∧ (['2', '0', '0'] : List Char).length ≤ 3 ∧
      (∀ x ∈ (['2', '0', '0'] : List Char), x.isDigit = true) ∧
      ('0' : Char).isDigit = true) ∧
    toAmount (some ⟨(if false then ['-'] else []) ++
        ((['2', '0', '0'] : List Char) ++
          ((([] : List (List Char)).map (fun g => '.' :: g)).flatten) ++ [',', '0', '0']) ++
        (if true then ['-'] else [])⟩)
      = (if false || true then (-1 : ℚ) else 1) *
        ((digitsToNat ((['2', '0', '0'] : List Char) ++ ([] : List (List Char)).flatten) : ℚ) +
          (digitsToNat ['0', '0'] : ℚ) / 100) :=
  ⟨by decide,
   C6_amount_normalization.1 false true ['2', '0', '0'] [] '0' '0' (by decide) (by decide)
     (by decide) (by decide) (by decide) (by decide)⟩


/-! ## C1: the consolidated ledger is the stable sort of the
concatenation

The stable sort by the `(banco, año, mes, fecha_orden)` key (what
`sort_values(kind="stable", na_position="last")` computes) coincides
with the sort by the key extended with the global concatenation index
as final tie-break: the claim's description of the order. -/

theorem pairLe_eq_keyLe {b x : Nat × Consol.Row} (hb : b.1 < x.1) :
    Consol.pairLe b x = Consol.keyLe b.2 x.2 := by
  unfold Consol.pairLe Consol.keyLe
  cases h : Consol.keyCompare b.2 x.2 with
  | lt => rfl
  | gt => rfl
  | eq => exact decide_eq_true (Nat.le_of_lt hb)

theorem mem_insertStable {le : α → α → Bool} {x a : α} {l : List α}
    (h : x ∈ Consol.insertStable le a l) : x = a ∨ x ∈ l := by
  induction l with
  | nil => simpa [Consol.insertStable] using h
  | cons b t ih =>
    unfold Consol.insertStable at h
    split at h
    · rcases List.mem_cons.mp h with rfl | h2
      · exact Or.inr (List.mem_cons_self _ _)
      · rcases ih h2 with h3 | h3
        · exact Or.inl h3
        · exact Or.inr (List.mem_cons_of_mem b h3)
    · rcases List.mem_cons.mp h with rfl | h2
      · exact Or.inl rfl
      · exact Or.inr h2

theorem map_snd_insertStable (x : Nat × Consol.Row) (L : List (Nat × Consol.Row))
    (h : ∀ p ∈ L, p.1 < x.1) :
    (Consol.insertStable Consol.pairLe x L).map (fun p => p.2)
      = Consol.insertStable Consol.keyLe x.2 (L.map (fun p => p.2)) := by
  induction L with
  | nil => rfl
  | cons b t ih =>
    have hb : b.1 < x.1 := h b (List.mem_cons_self b t)
    simp only [List.map_cons, Consol.insertStable, pairLe_eq_keyLe hb]
    split
    · simp only [List.map_cons]
      rw [ih (fun p hp => h p (List.mem_cons_of_mem b hp))]
    · simp [List.map_cons]

theorem foldl_insert_enumFrom (l : List Consol.Row) :
    ∀ (n : Nat) (acc : List (Nat × Consol.Row)), (∀ p ∈ acc, p.1 < n) →
      ((List.enumFrom n l).foldl (fun L x => Consol.insertStable Consol.pairLe x L) acc).map
        (fun p => p.2)
        = l.foldl (fun L x => Consol.insertStable Consol.keyLe x L) (acc.map (fun p => p.2)) := by
  induction l with
  | nil => intro n acc h; simp [List.enumFrom]
  | cons a t ih =>
    intro n acc h
    rw [List.enumFrom_cons]
    simp only [List.foldl]
    have hins : ∀ p ∈ Consol.insertStable Consol.pairLe (n, a) acc, p.1 < n + 1 := by
      intro p hp
      rcases mem_insertStable hp with rfl | hmem
      · exact Nat.lt_succ_self n
      · exact Nat.lt_succ_of_lt (h p hmem)
    rw [ih (n + 1) _ hins, map_snd_insertStable (n, a) acc h]

theorem sortStable_eq_indexed (l : List Consol.Row) :
    (Consol.sortStable Consol.pairLe l.enum).map (fun p => p.2)
      = Consol.sortStable Consol.keyLe l := by
  unfold Consol.sortStable
  rw [show l.enum = List.enumFrom 0 l from rfl,
    foldl_insert_enumFrom l 0 [] (by simp)]
  rfl

/-- C1: for every list of input statement tables (each with at least
one row, as every caller guarantees — `consolidate` reads first cells
with `iloc[0]`), the ledger `consolidate` returns is the concatenation
of all processed rows sorted by `(banco, año, mes, fecha_orden)` with
nulls last and the global concatenation index — statement order, then
each statement's original row index — as the final tie-break; and the
June/July example of bank `X` (3 movements plus opening/closing
balance each) yields the June block followed by the July block, each
in its original order, 10 rows in total. -/
theorem C1_consolidate_stable_order :
    (∀ inputs : List Consol.InItem, (∀ it ∈ inputs, it.df.rows ≠ []) →
      Consol.consolidate inputs = Consol.specLedger inputs) ∧
    Consol.consolidate [Consol.juneStatement, Consol.julyStatement]
      = Consol.processItem Consol.juneStatement ++ Consol.processItem Consol.julyStatement ∧
    (Consol.consolidate [Consol.juneStatement, Consol.julyStatement]).length = 10 := by
  refine ⟨fun inputs _ => ?_, ?_, ?_⟩
  · simp only [Consol.consolidate, Consol.specLedger]
    rw [sortStable_eq_indexed]
  · set_option maxRecDepth 100000 in decide
  · set_option maxRecDepth 100000 in decide

/-- Witness for C1: the June/July statements are non-empty, and the
sorted-ledger characterisation applies to them. -/
theorem C1_consolidate_stable_order_witness :
    (∀ it ∈ [Consol.juneStatement, Consol.julyStatement], it.df.rows ≠ []) ∧
    Consol.consolidate [Consol.juneStatement, Consol.julyStatement]
      = Consol.specLedger [Consol.juneStatement, Consol.julyStatement] :=
  ⟨by decide, C1_consolidate_stable_order.1 [Consol.juneStatement, Consol.julyStatement]
    (by decide)⟩

/-- Witness for C10: a one-part filename hits the fewer-than-three
condition and gets the sentinel. -/
theorem C10_filename_metadata_total_and_sentinel_witness :
    (Classifier.parseFilenameMetadata "foo.pdf").isSome = true ∧
    (Classifier.partsOf "foo.pdf").length < 3 ∧
    Classifier.parseFilenameMetadata "foo.pdf" = some Classifier.emptyMeta :=
  ⟨(C10_filename_metadata_total_and_sentinel "foo.pdf").1, by decide,
   (C10_filename_metadata_total_and_sentinel "foo.pdf").2 (Or.inl (by decide))⟩


/-! ### C7: date normalization and the two-digit-year pivot -/

theorem renderDigit_isDigit (n : Nat) : (renderDigit n).isDigit = true := by
  unfold renderDigit
  split <;> decide

theorem digitVal_renderDigit {n : Nat} (h : n ≤ 9) : digitVal (renderDigit n) = n := by
  interval_cases n <;> decide

theorem pad2_length (n : Nat) : (pad2 n).length = 2 := by
  unfold pad2
  split <;> rfl

theorem pad2_ne_nil (n : Nat) : pad2 n ≠ [] := by
  intro h
  have := pad2_length n
  rw [h] at this
  exact absurd this (by decide)

theorem pad2_all_digits (n : Nat) : ∀ x ∈ pad2 n, x.isDigit = true := by
  unfold pad2
  split
  · intro x hx
    rcases List.mem_cons.mp hx with rfl | hx
    · decide
    · rcases List.mem_cons.mp hx with rfl | hx
      · exact renderDigit_isDigit n
      · simp at hx
  · intro x hx
    rcases List.mem_cons.mp hx with rfl | hx
    · exact renderDigit_isDigit _
    · rcases List.mem_cons.mp hx with rfl | hx
      · exact renderDigit_isDigit _
      · simp at hx

theorem digitsToNat_pad2 {n : Nat} (h : n ≤ 99) : digitsToNat (pad2 n) = n := by
  unfold pad2
  split
  · rename_i hlt
    unfold digitsToNat
    simp [List.foldl, digitVal_renderDigit (show n ≤ 9 by omega),
      show digitVal '0' = 0 from by decide]
  · rename_i hge
    unfold digitsToNat
    simp [List.foldl, digitVal_renderDigit (show n / 10 ≤ 9 by omega),
      digitVal_renderDigit (show n % 10 ≤ 9 by omega)]
    omega

theorem pad4_length (n : Nat) : (pad4 n).length = 4 := rfl

theorem pad4_ne_nil (n : Nat) : pad4 n ≠ [] := by
  intro h
  have := pad4_length n
  rw [h] at this
  exact absurd this (by decide)

theorem pad4_all_digits (n : Nat) : ∀ x ∈ pad4 n, x.isDigit = true := by
  intro x hx
  unfold pad4 at hx
  rcases List.mem_cons.mp hx with rfl | hx
  · exact renderDigit_isDigit _
  · rcases List.mem_cons.mp hx with rfl | hx
    · exact renderDigit_isDigit _
    · rcases List.mem_cons.mp hx with rfl | hx
      · exact renderDigit_isDigit _
      · rcases List.mem_cons.mp hx with rfl | hx
        · exact renderDigit_isDigit _
        · simp at hx

theorem digitsToNat_pad4 {n : Nat} (h : n ≤ 9999) : digitsToNat (pad4 n) = n := by
  unfold pad4 digitsToNat
  simp [List.foldl, digitVal_renderDigit (show n / 1000 ≤ 9 by omega),
    digitVal_renderDigit (show n / 100 % 10 ≤ 9 by omega),
    digitVal_renderDigit (show n / 10 % 10 ≤ 9 by omega),
    digitVal_renderDigit (show n % 10 ≤ 9 by omega)]
  omega

theorem splitSep_ne_nil (sep : Char) (l : List Char) : splitSep sep l ≠ [] := by
  cases l with
  | nil => simp [splitSep]
  | cons c t =>
    unfold splitSep
    cases h : splitSep sep t with
    | nil => simp
    | cons g gs => by_cases hc : c = sep <;> simp [hc]

theorem splitSep_no_sep {sep : Char} {A : List Char} (h : ∀ c ∈ A, c ≠ sep) :
    splitSep sep A = [A] := by
  induction A with
  | nil => rfl
  | cons a t ih =>
    unfold splitSep
    rw [ih (fun c hc => h c (List.mem_cons_of_mem a hc))]
    simp [h a (List.mem_cons_self a t)]

theorem splitSep_append {sep : Char} {A : List Char} (B : List Char)
    (h : ∀ c ∈ A, c ≠ sep) : splitSep sep (A ++ sep :: B) = A :: splitSep sep B := by
  induction A with
  | nil =>
    simp only [List.nil_append]
    conv_lhs => unfold splitSep
    cases hb : splitSep sep B with
    | nil => exact absurd hb (splitSep_ne_nil sep B)
    | cons g gs => simp [hb]
  | cons a t ih =>
    simp only [List.cons_append]
    conv_lhs => unfold splitSep
    rw [ih (fun c hc => h c (List.mem_cons_of_mem a hc))]
    simp [h a (List.mem_cons_self a t)]

theorem pad2_ne_slash (n : Nat) : ∀ c ∈ pad2 n, c ≠ '/' :=
  fun c hc => digitNe (pad2_all_digits n c hc) (show ('/').isDigit = false by decide)

theorem pad2_ne_dash (n : Nat) : ∀ c ∈ pad2 n, c ≠ '-' :=
  fun c hc => digitNe (pad2_all_digits n c hc) (show ('-').isDigit = false by decide)

theorem pad4_ne_dash (n : Nat) : ∀ c ∈ pad4 n, c ≠ '-' :=
  fun c hc => digitNe (pad4_all_digits n c hc) (show ('-').isDigit = false by decide)

theorem parseDayField_pad2 {d : Nat} (h1 : 1 ≤ d) (h2 : d ≤ 31) :
    parseDayField (pad2 d) = some d := by
  unfold parseDayField
  rw [if_pos ⟨pad2_ne_nil d, le_of_eq (pad2_length d),
    List.all_eq_true.mpr (pad2_all_digits d)⟩]
  dsimp only
  rw [digitsToNat_pad2 (by omega)]
  rw [if_pos ⟨h1, h2⟩]

theorem parseMonthField_pad2 {m : Nat} (h1 : 1 ≤ m) (h2 : m ≤ 12) :
    parseMonthField (pad2 m) = some m := by
  unfold parseMonthField
  rw [if_pos ⟨pad2_ne_nil m, le_of_eq (pad2_length m),
    List.all_eq_true.mpr (pad2_all_digits m)⟩]
  dsimp only
  rw [digitsToNat_pad2 (by omega)]
  rw [if_pos ⟨h1, h2⟩]

theorem parseY4_pad4 {y : Nat} (h : y ≤ 9999) : parseY4 (pad4 y) = some y := by
  unfold parseY4
  rw [if_pos ⟨pad4_length y, List.all_eq_true.mpr (pad4_all_digits y)⟩,
    digitsToNat_pad4 h]

theorem parseY4_pad2 (y : Nat) : parseY4 (pad2 y) = none := by
  unfold parseY4
  rw [if_neg]
  intro hcon
  rw [pad2_length y] at hcon
  exact absurd hcon.1 (by decide)

theorem parseY2_pad2 {y : Nat} (h : y ≤ 99) :
    parseY2 (pad2 y) = some (if y ≤ 68 then 2000 + y else 1900 + y) := by
  unfold parseY2
  rw [if_pos ⟨pad2_length y, List.all_eq_true.mpr (pad2_all_digits y)⟩,
    digitsToNat_pad2 h]

theorem parseY2_pad4 (y : Nat) : parseY2 (pad4 y) = none := by
  unfold parseY2
  rw [if_neg]
  intro hcon
  rw [pad4_length y] at hcon
  exact absurd hcon.1 (by decide)

theorem splitSep_dmy (sep : Char) (A B C : List Char)
    (hA : ∀ c ∈ A, c ≠ sep) (hB : ∀ c ∈ B, c ≠ sep) (hC : ∀ c ∈ C, c ≠ sep) :
    splitSep sep (A ++ sep :: (B ++ sep :: C)) = [A, B, C] := by
  rw [splitSep_append _ hA, splitSep_append _ hB, splitSep_no_sep hC]

theorem strptimeDMY_y4_on_yy (d m y : Nat) (h1 : 1 ≤ d) (h2 : d ≤ 31)
    (hm1 : 1 ≤ m) (hm2 : m ≤ 12) :
    strptimeDMY '/' .y4 (pad2 d ++ '/' :: (pad2 m ++ '/' :: pad2 y)) = none := by
  unfold strptimeDMY
  rw [splitSep_dmy '/' _ _ _ (pad2_ne_slash d) (pad2_ne_slash m) (pad2_ne_slash y)]
  dsimp only
  rw [parseDayField_pad2 h1 h2, parseMonthField_pad2 hm1 hm2]
  simp [parseY4_pad2]

theorem strptimeDMY_y2_on_yy (d m y : Nat) (h1 : 1 ≤ d) (h2 : d ≤ 31)
    (hm1 : 1 ≤ m) (hm2 : m ≤ 12) (hy : y ≤ 99)
    (hval : d ≤ daysInMonth (if y ≤ 68 then 2000 + y else 1900 + y) m) :
    strptimeDMY '/' .y2 (pad2 d ++ '/' :: (pad2 m ++ '/' :: pad2 y))
      = some ⟨if y ≤ 68 then 2000 + y else 1900 + y, m, d⟩ := by
  unfold strptimeDMY
  rw [splitSep_dmy '/' _ _ _ (pad2_ne_slash d) (pad2_ne_slash m) (pad2_ne_slash y)]
  dsimp only
  rw [parseDayField_pad2 h1 h2, parseMonthField_pad2 hm1 hm2, parseY2_pad2 hy]
  simp only [Option.bind_eq_bind, Option.some_bind]
  rw [if_pos ⟨by split <;> omega, hval⟩]

theorem strptimeDMY_y4_on_yyyy (d m y : Nat) (h1 : 1 ≤ d) (h2 : d ≤ 31)
    (hm1 : 1 ≤ m) (hm2 : m ≤ 12) (hy1 : 1 ≤ y) (hy2 : y ≤ 9999)
    (hval : d ≤ daysInMonth y m) :
    strptimeDMY '/' .y4 (pad2 d ++ '/' :: (pad2 m ++ '/' :: pad4 y))
      = some ⟨y, m, d⟩ := by
  unfold strptimeDMY
  rw [splitSep_dmy '/' _ _ _ (pad2_ne_slash d) (pad2_ne_slash m)
    (fun c hc => digitNe (pad4_all_digits y c hc) (show ('/').isDigit = false by decide))]
  dsimp only
  rw [parseDayField_pad2 h1 h2, parseMonthField_pad2 hm1 hm2, parseY4_pad4 hy2]
  simp only [Option.bind_eq_bind, Option.some_bind]
  rw [if_pos ⟨hy1, hval⟩]

theorem isoParse_isoRender (t : PDate) (hy1 : 1 ≤ t.y) (hy2 : t.y ≤ 9999)
    (hm1 : 1 ≤ t.m) (hm2 : t.m ≤ 12) (hd1 : 1 ≤ t.d) (hd2 : t.d ≤ 31)
    (hval : t.d ≤ daysInMonth t.y t.m) :
    isoParse (isoRender t) = some t := by
  unfold isoParse isoRender
  rw [splitSep_dmy '-' _ _ _ (pad4_ne_dash t.y) (pad2_ne_dash t.m) (pad2_ne_dash t.d)]
  dsimp only
  rw [parseY4_pad4 hy2, parseMonthField_pad2 hm1 hm2, parseDayField_pad2 hd1 hd2]
  simp only [Option.bind_eq_bind, Option.some_bind]
  rw [if_pos ⟨hy1, hval⟩]

theorem pdGuessDate_isoRender (t : PDate) (hy1 : 1 ≤ t.y) (hy2 : t.y ≤ 9999)
    (hm1 : 1 ≤ t.m) (hm2 : t.m ≤ 12) (hd1 : 1 ≤ t.d) (hd2 : t.d ≤ 31)
    (hval : t.d ≤ daysInMonth t.y t.m) (hts : tsOk t = true) :
    pdGuessDate (isoRender t) = some t := by
  unfold pdGuessDate
  rw [show (isoParse (isoRender t)).orElse (fun _ => strptimeDMY '/' .y4 (isoRender t))
      = some t by
    rw [isoParse_isoRender t hy1 hy2 hm1 hm2 hd1 hd2 hval]
    rfl]
  dsimp only
  rw [if_pos hts]

theorem daysInMonth_le_31 (y m : Nat) : daysInMonth y m ≤ 31 := by
  unfold daysInMonth
  split
  · split <;> omega
  · split <;> omega

theorem dateChars_ws (d m : Nat) (ytail : List Char)
    (hy : ∀ x ∈ ytail, x.isDigit = true) :
    ∀ x ∈ pad2 d ++ '/' :: (pad2 m ++ '/' :: ytail), x.isWhitespace = false := by
  intro x hx
  rcases List.mem_append.mp hx with hx | hx
  · exact digitNotWs (pad2_all_digits d x hx)
  · rcases List.mem_cons.mp hx with rfl | hx
    · decide
    · rcases List.mem_append.mp hx with hx | hx
      · exact digitNotWs (pad2_all_digits m x hx)
      · rcases List.mem_cons.mp hx with rfl | hx
        · decide
        · exact digitNotWs (hy x hx)

theorem dateStr_ne_empty (d m : Nat) (ytail : List Char) :
    (⟨pad2 d ++ '/' :: (pad2 m ++ '/' :: ytail)⟩ : String) ≠ "" := by
  intro h
  have h2 := congrArg String.data h
  have h3 : pad2 d ++ '/' :: (pad2 m ++ '/' :: ytail) = [] := h2
  rcases List.append_eq_nil.mp h3 with ⟨_, h5⟩
  exact absurd h5 (by simp)

theorem normalizeDate_ddmmyy (nowYear d m y : Nat) (h1 : 1 ≤ d) (hm1 : 1 ≤ m) (hm2 : m ≤ 12)
    (hy : y ≤ 99) (hval : d ≤ daysInMonth (if y ≤ 68 then 2000 + y else 1900 + y) m) :
    normalizeDate nowYear ⟨pad2 d ++ '/' :: (pad2 m ++ '/' :: pad2 y)⟩
      = ⟨isoRender ⟨if y ≤ 68 then 2000 + y else 1900 + y, m, d⟩⟩ := by
  have hd31 : d ≤ 31 := le_trans hval (daysInMonth_le_31 _ _)
  unfold normalizeDate
  rw [if_neg (dateStr_ne_empty d m (pad2 y))]
  rw [show trimL (String.mk (pad2 d ++ '/' :: (pad2 m ++ '/' :: pad2 y))).data
      = pad2 d ++ '/' :: (pad2 m ++ '/' :: pad2 y) from
    trimL_eq_self (dateChars_ws d m (pad2 y) (pad2_all_digits y))]
  dsimp only
  rw [strptimeDMY_y4_on_yy d m y h1 hd31 hm1 hm2]
  rw [strptimeDMY_y2_on_yy d m y h1 hd31 hm1 hm2 hy hval]

theorem normalizeDate_ddmmyyyy (nowYear d m y : Nat) (h1 : 1 ≤ d) (hm1 : 1 ≤ m) (hm2 : m ≤ 12)
    (hy1 : 1 ≤ y) (hy2 : y ≤ 9999) (hval : d ≤ daysInMonth y m) :
    normalizeDate nowYear ⟨pad2 d ++ '/' :: (pad2 m ++ '/' :: pad4 y)⟩
      = ⟨isoRender ⟨y, m, d⟩⟩ := by
  have hd31 : d ≤ 31 := le_trans hval (daysInMonth_le_31 _ _)
  unfold normalizeDate
  rw [if_neg (dateStr_ne_empty d m (pad4 y))]
  rw [show trimL (String.mk (pad2 d ++ '/' :: (pad2 m ++ '/' :: pad4 y))).data
      = pad2 d ++ '/' :: (pad2 m ++ '/' :: pad4 y) from
    trimL_eq_self (dateChars_ws d m (pad4 y) (pad4_all_digits y))]
  dsimp only
  rw [strptimeDMY_y4_on_yyyy d m y h1 hd31 hm1 hm2 hy1 hy2 hval]

theorem reformat_isoRender (t : PDate) (hy1 : 1 ≤ t.y) (hy2 : t.y ≤ 9999)
    (hm1 : 1 ≤ t.m) (hm2 : t.m ≤ 12) (hd1 : 1 ≤ t.d) (hd2 : t.d ≤ 31)
    (hval : t.d ≤ daysInMonth t.y t.m) (hts : tsOk t = true) :
    reformatCell ⟨isoRender t⟩ = ⟨dmyRender t⟩ := by
  unfold reformatCell
  rw [show (⟨isoRender t⟩ : String).data = isoRender t from rfl,
    pdGuessDate_isoRender t hy1 hy2 hm1 hm2 hd1 hd2 hval hts]

theorem tsOk_of_bounds {Y m d : Nat} (h1 : 1678 ≤ Y) (h2 : Y ≤ 2261)
    (hm : m ≤ 12) (hd : d ≤ 31) : tsOk ⟨Y, m, d⟩ = true := by
  simp only [tsOk, PDate.code, Bool.and_eq_true, decide_eq_true_eq]
  omega

/-- C7 (counterexample): CPython's two-digit-year pivot maps 69 to
1969, not 2069 — the claim's threshold of 70 is off by one exactly at
69 (68 still maps to 2068). -/
theorem C7_two_digit_pivot_counterexample :
    pipelineDate 2026 "01/01/69" = "01/01/1969" ∧
    pipelineDate 2026 "01/01/69" ≠ "01/01/2069" ∧
    pipelineDate 2026 "01/01/68" = "01/01/2068" :=
  ⟨by decide, by decide, by decide⟩

/-- C7 (amended): for every valid `dd/mm/yy` date string the composed
normalization yields `dd/mm/yyyy` with a two-digit year at most 68
mapped into 20xx and 69..99 mapped into 19xx; a valid `dd/mm/yyyy`
date inside the pandas `Timestamp` year range is reproduced
unchanged. -/
theorem C7_date_normalization_amended :
    (∀ (nowYear d m y : Nat), 1 ≤ d → 1 ≤ m → m ≤ 12 → y ≤ 99 →
      d ≤ daysInMonth (if y ≤ 68 then 2000 + y else 1900 + y) m →
      pipelineDate nowYear ⟨pad2 d ++ '/' :: (pad2 m ++ '/' :: pad2 y)⟩
        = ⟨pad2 d ++ '/' :: (pad2 m ++ '/' :: pad4 (if y ≤ 68 then 2000 + y else 1900 + y))⟩) ∧
    (∀ (nowYear d m y : Nat), 1 ≤ d → 1 ≤ m → m ≤ 12 → 1678 ≤ y → y ≤ 2261 →
      d ≤ daysInMonth y m →
      pipelineDate nowYear ⟨pad2 d ++ '/' :: (pad2 m ++ '/' :: pad4 y)⟩
        = ⟨pad2 d ++ '/' :: (pad2 m ++ '/' :: pad4 y)⟩) := by
  constructor
  · intro nowYear d m y h1 hm1 hm2 hy hval
    have hd31 : d ≤ 31 := le_trans hval (daysInMonth_le_31 _ _)
    unfold pipelineDate
    rw [normalizeDate_ddmmyy nowYear d m y h1 hm1 hm2 hy hval]
    rw [reformat_isoRender ⟨if y ≤ 68 then 2000 + y else 1900 + y, m, d⟩
      (show 1 ≤ (if y ≤ 68 then 2000 + y else 1900 + y) from by split <;> omega)
      (show (if y ≤ 68 then 2000 + y else 1900 + y) ≤ 9999 from by split <;> omega)
      hm1 hm2 h1 hd31 hval
      (tsOk_of_bounds
        (show 1678 ≤ (if y ≤ 68 then 2000 + y else 1900 + y) from by split <;> omega)
        (show (if y ≤ 68 then 2000 + y else 1900 + y) ≤ 2261 from by split <;> omega)
        hm2 hd31)]
    rfl
  · intro nowYear d m y h1 hm1 hm2 hy1 hy2 hval
    have hd31 : d ≤ 31 := le_trans hval (daysInMonth_le_31 _ _)
    unfold pipelineDate
    rw [normalizeDate_ddmmyyyy nowYear d m y h1 hm1 hm2 (by omega) (by omega) hval]
    rw [reformat_isoRender ⟨y, m, d⟩ (show 1 ≤ y from by omega)
      (show y ≤ 9999 from by omega) hm1 hm2 h1 hd31 hval
      (tsOk_of_bounds hy1 hy2 hm2 hd31)]
    rfl

/-- Witness for C7 (amended): `15/07/25` becomes `15/07/2025`. -/
theorem C7_date_normalization_amended_witness :
    ((1 : Nat) ≤ 15 ∧ (1 : Nat) ≤ 7 ∧ (7 : Nat) ≤ 12 ∧ (25 : Nat) ≤ 99 ∧
      (15 : Nat) ≤ daysInMonth (if 25 ≤ 68 then 2000 + 25 else 1900 + 25) 7) ∧
    pipelineDate 2026 ⟨pad2 15 ++ '/' :: (pad2 7 ++ '/' :: pad2 25)⟩
      = ⟨pad2 15 ++ '/' :: (pad2 7 ++ '/' :: pad4 (if 25 ≤ 68 then 2000 + 25 else 1900 + 25))⟩ :=
  ⟨by decide, C7_date_normalization_amended.1 2026 15 7 25 (by decide) (by decide) (by decide)
    (by decide) (by decide)⟩

end TGA
